import Mathlib

/-!
Verification development for the esocc compiler core (middle end, backend
and peephole optimizer). Python sources are shallowly embedded as
executable Lean definitions: mutable state becomes explicit state passing,
Python dicts become insertion-ordered association lists, Python sets of
identifiers become duplicate-free lists (membership-checked insertion),
and fallible operations return Option/Except. Unbounded `while` loops are
given explicit fuel together with lemmas showing the fuel suffices.
-/

namespace Esocc

/-! ## IR model (src/ir/ir.py) -/

/-- Embeds `IrOpcodeClass` from src/ir/ir.py. -/
inductive IrOpcodeClass
  | NONE | ASSIGN2 | ASSIGN3 | USE1 | USE2 | ASSIGN_CALL | ASSIGN_FIXED_CALL | CALL
deriving DecidableEq, Repr

/-- Embeds `IrOpcode` from src/ir/ir.py. -/
inductive IrOpcode
  | UNDEF
  | ASSIGN
  | ASSIGN_ADD | ASSIGN_SUB | ASSIGN_MUL | ASSIGN_DIV | ASSIGN_MOD
  | ASSIGN_SIGNED_ADD | ASSIGN_SIGNED_SUB | ASSIGN_SIGNED_MUL
  | ASSIGN_SIGNED_DIV | ASSIGN_SIGNED_MOD
  | ASSIGN_OR | ASSIGN_AND | ASSIGN_XOR
  | ASSIGN_CALL | ASSIGN_CALL_PTR | CALL | CALL_PTR | RETN | RET
  | WRITE | ASSIGN_READ | ASSIGN_ADDROF
  | CMP | JMP | JE | JNE | JL | JLE | JG | JGE
  | ASSIGN_PHI | LOAD | STORE | UNLOAD
deriving DecidableEq, Repr
namespace IrOpcode

/-- Embeds `IrOpcode.is_opcode_assign` (membership in the explicit list). -/
def isOpcodeAssign : IrOpcode → Bool
  | ASSIGN
  | ASSIGN_ADD | ASSIGN_SUB | ASSIGN_MUL | ASSIGN_DIV | ASSIGN_MOD
  | ASSIGN_SIGNED_ADD | ASSIGN_SIGNED_SUB | ASSIGN_SIGNED_MUL
  | ASSIGN_SIGNED_DIV | ASSIGN_SIGNED_MOD
  | ASSIGN_OR | ASSIGN_AND | ASSIGN_XOR
  | ASSIGN_READ | ASSIGN_ADDROF
  | ASSIGN_CALL | ASSIGN_PHI => true
  | _ => false

/-- Embeds `IrOpcode.get_opcode_class` (the dictionary in src/ir/ir.py). -/
def getOpcodeClass : IrOpcode → IrOpcodeClass
  | UNDEF => .NONE
  | RETN => .NONE
  | LOAD => .NONE
  | STORE => .NONE
  | UNLOAD => .NONE
  | ASSIGN => .ASSIGN2
  | ASSIGN_READ => .ASSIGN2
  | ASSIGN_ADDROF => .ASSIGN2
  | ASSIGN_ADD => .ASSIGN3
  | ASSIGN_SUB => .ASSIGN3
  | ASSIGN_MUL => .ASSIGN3
  | ASSIGN_DIV => .ASSIGN3
  | ASSIGN_MOD => .ASSIGN3
  | ASSIGN_SIGNED_ADD => .ASSIGN3
  | ASSIGN_SIGNED_SUB => .ASSIGN3
  | ASSIGN_SIGNED_MUL => .ASSIGN3
  | ASSIGN_SIGNED_DIV => .ASSIGN3
  | ASSIGN_SIGNED_MOD => .ASSIGN3
  | ASSIGN_OR => .ASSIGN3
  | ASSIGN_AND => .ASSIGN3
  | ASSIGN_XOR => .ASSIGN3
  | RET => .USE1
  | JMP => .USE1
  | JE => .USE1
  | JNE => .USE1
  | JL => .USE1
  | JLE => .USE1
  | JG => .USE1
  | JGE => .USE1
  | CMP => .USE2
  | WRITE => .USE2
  | ASSIGN_CALL => .ASSIGN_CALL
  | ASSIGN_PHI => .ASSIGN_FIXED_CALL
  | CALL => .CALL
  | ASSIGN_CALL_PTR => .ASSIGN_CALL
  | CALL_PTR => .CALL

/-- Embeds `IrOpcode.get_operand_count` (keyed by the opcode class). -/
def getOperandCount (op : IrOpcode) : Nat :=
  match op.getOpcodeClass with
  | .ASSIGN_CALL => 2
  | .ASSIGN_FIXED_CALL => 1
  | .NONE => 0
  | .USE1 => 1
  | .USE2 => 2
  | .ASSIGN2 => 2
  | .ASSIGN3 => 3
  | .CALL => 1

/-- Embeds `IrOpcode.has_extra_operands`. -/
def hasExtraOperands (op : IrOpcode) : Bool :=
  match op.getOpcodeClass with
  | .ASSIGN_CALL => true
  | .ASSIGN_FIXED_CALL => true
  | .CALL => true
  | _ => false
end IrOpcode

/-- Variable identifiers (`IrVarId`): plain naturals, packed. -/
abbrev IrVarId := Nat

/-- Embeds `make_var_id(base, subscript, special)`:
`base | (subscript << 16) | (special << 32)`. -/
def makeVarId (base : Nat) (subscript : Nat := 0) (special : Nat := 0) : IrVarId :=
  base ||| (subscript <<< 16) ||| (special <<< 32)

/-- Embeds `var_base(xid)`: `xid & 0xFFFF`. -/
def varBase (xid : IrVarId) : Nat := xid &&& 0xFFFF

/-- Embeds `var_subscript(xid)`: `(xid >> 16) & 0xFFFF`. -/
def varSubscript (xid : IrVarId) : Nat := (xid >>> 16) &&& 0xFFFF

/-- Embeds `var_special(xid)`: `xid >> 32`. -/
def varSpecial (xid : IrVarId) : Nat := xid >>> 32

/-- Embeds the `IrOperand` variants (`IrConst`, `IrVar`, `IrLabel`,
`IrOffset`, `IrName`, `IrBlockRef`) as one closed sum. -/
inductive IrOperand
  | const (val : Int)
  | var (xid : IrVarId)
  | label (xid : Nat)
  | offset (off : Int)
  | name (s : String)
  | blockRef (xid : Nat)
deriving DecidableEq, Repr

/-- Embeds `IrInstruction`: an opcode, three fixed operand slots (Python
initializes them to `None`), and the variable-length extras list. -/
structure IrInstruction where
  op : IrOpcode := .UNDEF
  opr0 : Option IrOperand := none
  opr1 : Option IrOperand := none
  opr2 : Option IrOperand := none
  extra : List IrOperand := []
deriving DecidableEq, Repr
namespace IrInstruction

/-- The `inst.oprs` list view of the three slots. -/
def oprs (inst : IrInstruction) : List (Option IrOperand) :=
  [inst.opr0, inst.opr1, inst.opr2]

/-- Embeds the Python slice `inst.oprs[a:b]`. -/
def oprsSlice (inst : IrInstruction) (a b : Nat) : List (Option IrOperand) :=
  (inst.oprs.take b).drop a

/-- The slice `inst.oprs[opr_start:opr_end]` used throughout the analyses:
operand slots holding read operands (skipping the written destination). -/
def readSlots (inst : IrInstruction) : List (Option IrOperand) :=
  inst.oprsSlice (if inst.op.isOpcodeAssign then 1 else 0) inst.op.getOperandCount
end IrInstruction

/-! ## Peephole optimizer (src/asm/dcpu16/peephole.py)

The optimizer works on the textual assembly, one instruction per line.
We embed the text as a list of structured lines: each constructor captures
exactly one of the line shapes the three regular expressions distinguish
(`raw` covers every line matching none of them).  `re.sub` of a pattern
anchored at a tab — tabs only occur line-initially — replacing 2 or 3
consecutive lines by one, scanning leftmost and non-overlapping, becomes
structural recursion over the line list. -/
namespace Peephole

/-- The register alternation `A|B|C|X|Y|Z|I|J|SP` used by all three
patterns for `tmp_reg` / `target`. -/
inductive Dreg | A | B | C | X | Y | Z | I | J | SP
deriving DecidableEq, Repr

/-- The mnemonic alternation `ADD|SUB|MUL` of `TWO_SAME_OPS` (the two
deref patterns only allow `ADD|SUB`). -/
inductive ArithOp | ADD | SUB | MUL
deriving DecidableEq, Repr

/-- A sign written by the patterns' optional ` [-+] \d+` group and by the
rewrite output ` {operation} {constant}`. -/
inductive Sign | plus | minus
deriving DecidableEq, Repr

/-- A memory operand `[base]` or `[base s k]`; `k` is stored as an integer
because the rewrite can print a negative combined constant, which then no
longer matches the `\d+` group of any pattern. -/
structure MemOperand where
  base : String
  off : Option (Sign × Int)
deriving DecidableEq, Repr

/-- One line of assembly text, as the three patterns can see it:
`setRegTok d s` is `"\tSET d, s"` with `s` a bare token;
`arith op d k` is `"\top d, k"`;
`setFromMem d m` is `"\tSET d, [m]"`;
`setToMem m s` is `"\tSET [m], s"`;
`raw` is any other line. -/
inductive AsmLine
  | setRegTok (dst : Dreg) (src : String)
  | arith (op : ArithOp) (dst : Dreg) (imm : Int)
  | setFromMem (dst : String) (mem : MemOperand)
  | setToMem (mem : MemOperand) (src : String)
  | raw (s : String)
deriving DecidableEq, Repr

/-- Character class `[_a-zA-Z0-9]` of the `target_reg` group. -/
def isTokenChar (c : Char) : Bool :=
  c = '_' || ('a' ≤ c && c ≤ 'z') || ('A' ≤ c && c ≤ 'Z') || ('0' ≤ c && c ≤ '9')

/-- `[_a-zA-Z0-9]+`: a nonempty run of token characters. -/
def isToken (s : String) : Bool :=
  s ≠ "" && s.toList.all isTokenChar

/-- Register name as it appears in the text (used for the back-reference
between the bracketed register of line 3 and `tmp_reg` of line 1). -/
def Dreg.render : Dreg → String
  | .A => "A" | .B => "B" | .C => "C" | .X => "X" | .Y => "Y"
  | .Z => "Z" | .I => "I" | .J => "J" | .SP => "SP"

/-- A memory operand matches the group `[tmp_reg( [-+] \d+)?]` only when
its printed constant is a plain numeral (no sign). -/
def memOffMatches : Option (Sign × Int) → Bool
  | none => true
  | some (_, m) => 0 ≤ m

/-- Embeds the `eval(f'{operation} {constant} {existing_operation}
{existing_constant}')` arithmetic of `_set_addsub_deref`: a signed unary
operation applied to the first constant, then the signed second constant. -/
def derefCombine (op : Sign) (k : Int) (offSide : Option (Sign × Int)) : Int :=
  let base : Int := match op with | .plus => k | .minus => -k
  match offSide with
  | none => k
  | some (.plus, m) => base + m
  | some (.minus, m) => base - m

/-- `SET_ADDSUB_DEREF_1`: lines `SET tmp, target` / `{ADD,SUB} tmp, k` /
`SET dest, [tmp (± m)?]` rewrite to `SET dest, [target ± c]`. Returns the
replacement line when the three lines match. -/
def tryDeref1 : AsmLine → AsmLine → AsmLine → Option AsmLine
  | .setRegTok tmp target, .arith op tmp2 k, .setFromMem dest mem =>
    if isToken target ∧ (op = .ADD ∨ op = .SUB) ∧ tmp2 = tmp ∧ 0 ≤ k ∧
        mem.base = tmp.render ∧ memOffMatches mem.off then
      let sgn : Sign := if op = .ADD then .plus else .minus
      some (.setFromMem dest ⟨target, some (sgn, derefCombine sgn k mem.off)⟩)
    else none
  | _, _, _ => none

/-- `SET_ADDSUB_DEREF_2`: the symmetric store form
`SET [tmp (± m)?], src` rewriting to `SET [target ± c], src`. -/
def tryDeref2 : AsmLine → AsmLine → AsmLine → Option AsmLine
  | .setRegTok tmp target, .arith op tmp2 k, .setToMem mem src =>
    if isToken target ∧ (op = .ADD ∨ op = .SUB) ∧ tmp2 = tmp ∧ 0 ≤ k ∧
        mem.base = tmp.render ∧ memOffMatches mem.off then
      let sgn : Sign := if op = .ADD then .plus else .minus
      some (.setToMem ⟨target, some (sgn, derefCombine sgn k mem.off)⟩ src)
    else none
  | _, _, _ => none

/-- Embeds `_two_same_ops`' value computation. The source reads the group
`constant_1` into both `const1` and `const2` (`constant_2` is captured but
never read), so the second line's constant does not enter the result. -/
def twoSameVal (op : ArithOp) (c1 c2 : Int) : Int :=
  let const1 := c1
  let const2 := c1
  match op with
  | .ADD => const1 + const2
  | .SUB => const1 - const2
  | .MUL => const1 * const2

/-- `TWO_SAME_OPS`: two consecutive `op R, k` lines with the same mnemonic
and destination collapse into one. -/
def tryTwoSame : AsmLine → AsmLine → Option AsmLine
  | .arith op1 d1 k1, .arith op2 d2 k2 =>
    if op2 = op1 ∧ d2 = d1 ∧ 0 ≤ k1 ∧ 0 ≤ k2 then
      some (.arith op1 d1 (twoSameVal op1 k1 k2))
    else none
  | _, _ => none

/-- One `re.sub` traversal with a three-line pattern: leftmost matches,
non-overlapping, resuming after each replacement. -/
def subThree (pat : AsmLine → AsmLine → AsmLine → Option AsmLine) :
    List AsmLine → List AsmLine
  | l1 :: l2 :: l3 :: rest =>
    match pat l1 l2 l3 with
    | some r => r :: subThree pat rest
    | none => l1 :: subThree pat (l2 :: l3 :: rest)
  | l => l

/-- One `re.sub` traversal with a two-line pattern. -/
def subTwo (pat : AsmLine → AsmLine → Option AsmLine) :
    List AsmLine → List AsmLine
  | l1 :: l2 :: rest =>
    match pat l1 l2 with
    | some r => r :: subTwo pat rest
    | none => l1 :: subTwo pat (l2 :: rest)
  | l => l

/-- Embeds `Dcpu16PeepholeOptimizer._apply`: the three substitutions in
source order. -/
def applyRules (l : List AsmLine) : List AsmLine :=
  subTwo tryTwoSame (subThree tryDeref2 (subThree tryDeref1 l))

/-- Embeds the `while asm != new_asm` loop of `optimize`, with fuel; by
`applyRules_eq_or_lt` the fuel `l.length + 1` used by `optimize` is never
exhausted. -/
def optimizeAux : Nat → List AsmLine → List AsmLine
  | 0, l => l
  | fuel + 1, l =>
    let n := applyRules l
    if n = l then n else optimizeAux fuel n

/-- Embeds `Dcpu16PeepholeOptimizer.optimize`. -/
def optimize (l : List AsmLine) : List AsmLine := optimizeAux (l.length + 1) l
end Peephole

/-! ## Control flow graphs (src/ir/control_flow.py) -/

/-- Embeds `BasicBlock`. Predecessors and successors are recorded by block
id (the Python lists hold the block objects; ids identify them uniquely,
and the code reads neighbours through `get_id()` / map lookups). -/
structure BasicBlock where
  id : Nat
  insts : List IrInstruction
  base : Nat := 0
  prev : List Nat := []
  next : List Nat := []
deriving DecidableEq, Repr

/-- Embeds `ControlFlowGraphType`. -/
inductive ControlFlowGraphType | NORMAL | SSA
deriving DecidableEq, Repr

/-- Embeds `ControlFlowGraph`: the insertion-ordered `_blocks` list (the
id-keyed `_block_map` is recovered by searching it). -/
structure ControlFlowGraph where
  type : ControlFlowGraphType
  root : Nat
  blocks : List BasicBlock
deriving DecidableEq, Repr

/-- Embeds `ControlFlowGraph.find_block` (`_block_map[xid]`). -/
def ControlFlowGraph.findBlock (cfg : ControlFlowGraph) (xid : Nat) : Option BasicBlock :=
  cfg.blocks.find? (fun b => b.id = xid)

/-- Embeds `_is_branch_instruction`. -/
def isBranchInstruction (inst : IrInstruction) : Bool :=
  inst.op = .JMP || inst.op = .JE || inst.op = .JNE || inst.op = .JL ||
  inst.op = .JLE || inst.op = .JG || inst.op = .JGE

/-- Embeds `_is_end_instruction`. -/
def isEndInstruction (inst : IrInstruction) : Bool :=
  inst.op = .RET || inst.op = .RETN

/-- Python list assignment `l[idx] = True` with an `int` index: negative
indices wrap from the end, out-of-range raises (`none`). -/
def pyListSetTrue (l : List Bool) (idx : Int) : Option (List Bool) :=
  let n : Int := l.length
  let j := if idx < 0 then idx + n else idx
  if 0 ≤ j ∧ j < n then some (l.set j.toNat true) else none

/-- Embeds the leader-marking loop of `build_graph`: index 0, every index
after a branch or return, and each branch's target `i + 1 + offset`
(which asserts the operand is an `IrOffset` and uses Python indexing). -/
def markLeaders (insts : List IrInstruction) : Option (List Bool) :=
  let n := insts.length
  let init := (List.replicate n false).set 0 true
  insts.enum.foldlM (fun flags (pair : Nat × IrInstruction) =>
    let i := pair.1
    let inst := pair.2
    if isBranchInstruction inst then
      let flags := if i ≠ n - 1 then flags.set (i + 1) true else flags
      match inst.opr0 with
      | some (.offset off) => pyListSetTrue flags ((i : Int) + 1 + off)
      | _ => none
    else if isEndInstruction inst then
      pure (if i ≠ n - 1 then flags.set (i + 1) true else flags)
    else
      pure flags) init

/-- Embeds the block-forming loop of `build_graph`: each block takes the
instruction at its start index plus the following non-leaders; keys are
start indices, ids are drawn from the fresh-id counter. The list is
zipped with the leader flags; the fuel (one unit per block formed, so the
input length always suffices) keeps the recursion structural. -/
def groupBlocks : Nat → Nat → Nat → List (IrInstruction × Bool) → List (Nat × BasicBlock)
  | _, _, _, [] => []
  | 0, _, _, _ => []
  | fuel + 1, nid, p, (inst, _) :: rest =>
    let run := rest.takeWhile (fun q => !q.2)
    let rest2 := rest.dropWhile (fun q => !q.2)
    (p, { id := nid, insts := inst :: run.map Prod.fst }) ::
      groupBlocks fuel (nid + 1) (p + 1 + run.length) rest2

/-- Looks up the block stored under a start index. -/
def lookupEntry (bs : List (Nat × BasicBlock)) (p : Nat) : Option BasicBlock :=
  (bs.find? (fun e => e.1 = p)).map Prod.snd

/-- Applies an update to the block stored under a start index. -/
def updEntry (bs : List (Nat × BasicBlock)) (key : Nat) (f : BasicBlock → BasicBlock) :
    List (Nat × BasicBlock) :=
  bs.map (fun e => if e.1 = key then (e.1, f e.2) else e)

/-- Replaces operand 0 of the last instruction (the branch rewrite from
`IrOffset` to `IrBlockRef`). -/
def setLastOpr0 (insts : List IrInstruction) (o : IrOperand) : List IrInstruction :=
  match insts.getLast? with
  | none => insts
  | some lastI => insts.dropLast ++ [{ lastI with opr0 := some o }]

/-- First half of the linking loop body: when the block ends in a branch
whose target index starts another block, record the edge and rewrite the
branch operand from `IrOffset` to `IrBlockRef`. -/
def linkBranchStep (bs : List (Nat × BasicBlock)) (p : Nat) (blk : BasicBlock)
    (lastI : IrInstruction) : List (Nat × BasicBlock) :=
  if isBranchInstruction lastI then
    match lastI.opr0 with
    | some (.offset off) =>
      let tIdx : Int := (p : Int) + blk.insts.length + off
      match bs.find? (fun e => (e.1 : Int) = tIdx) with
      | some te =>
        let bsp := updEntry bs te.1 (fun b => { b with prev := b.prev ++ [blk.id] })
        updEntry bsp p (fun b =>
          { b with next := b.next ++ [te.2.id],
                   insts := setLastOpr0 b.insts (.blockRef te.2.id) })
      | none => bs
    | _ => bs
  else bs

/-- Second half of the linking loop body: for a block not ending in an
unconditional jump or return, record the fall-through edge to the block
starting at the following index, if one exists. -/
def linkFallThrough (bs1 : List (Nat × BasicBlock)) (p : Nat) (blk : BasicBlock)
    (lastI : IrInstruction) : List (Nat × BasicBlock) :=
  if lastI.op ≠ .JMP ∧ ¬ isEndInstruction lastI then
    let nIdx := p + blk.insts.length
    match lookupEntry bs1 nIdx with
    | some nblk =>
      updEntry (updEntry bs1 nIdx (fun b => { b with prev := b.prev ++ [blk.id] })) p
        (fun b => { b with next := b.next ++ [nblk.id] })
    | none => bs1
  else bs1

/-- Embeds one iteration of the linking loop of `build_graph` for the
block at start index `p`. -/
def linkOne (bs : List (Nat × BasicBlock)) (p : Nat) : List (Nat × BasicBlock) :=
  match lookupEntry bs p with
  | none => bs
  | some blk =>
    match blk.insts.getLast? with
    | none => bs
    | some lastI => linkFallThrough (linkBranchStep bs p blk lastI) p blk lastI

/-- Embeds `ControlFlowAnalyzer.build_graph`. An empty input produces the
single empty root block; otherwise leaders are marked (`none` on an
assertion failure or bad index), blocks are formed and linked, and the
CFG collects them in start-index order, recording each start index as the
block's `base`. -/
def buildGraph (insts : List IrInstruction) : Option ControlFlowGraph :=
  if insts.isEmpty then
    some { type := .NORMAL, root := 1, blocks := [{ id := 1, insts := [] }] }
  else
    (markLeaders insts).map fun flags =>
      let blocks := groupBlocks insts.length 1 0 (insts.zip flags)
      let linked := (blocks.map Prod.fst).foldl linkOne blocks
      let rootId := match lookupEntry linked 0 with
        | some b => b.id
        | none => 1
      { type := .NORMAL, root := rootId,
        blocks := linked.map (fun e => { e.2 with base := e.1 }) }

/-! ## Live-variable analysis (src/ir/data_flow.py, `LiveAnalyzer`)

Python sets of variable ids become `Finset IrVarId` (the code only ever
tests membership, adds, removes and compares whole sets, so iteration
order is never observable). The per-block fragment dictionary becomes an
association list keyed by block id; neighbour fragments are read through
the current list, as the in-place solver does. -/

/-- State of the `_compute_ue_var_and_var_kill` loop over one block:
upward-exposed variables, killed variables, and the in-memory
(spill-slot) bookkeeping set. -/
structure UEState where
  ueVar : Finset IrVarId := ∅
  varKills : Finset IrVarId := ∅
  inMem : Finset IrVarId := ∅
deriving DecidableEq

/-- One read operand of a non-spill instruction: skipped when held in a
spill slot, added to `ue_var` unless already killed in this block. -/
def ueReadVar (st : UEState) (opr : Option IrOperand) : UEState :=
  match opr with
  | some (.var v) =>
    if v ∈ st.inMem then st
    else if v ∉ st.varKills then { st with ueVar := insert v st.ueVar }
    else st
  | _ => st

/-- One instruction of the `_compute_ue_var_and_var_kill` loop. `STORE`
removes its variable from the kill set and the in-memory set, `UNLOAD`
removes it from the in-memory set, `LOAD` adds it; all other opcodes read
their operand slots and extras and kill their written destination. (The
spill opcodes read `oprs[0].get_id()`, which in Python presupposes an
`IrVar`; a non-variable slot is treated as leaving the state unchanged.) -/
def ueStep (st : UEState) (inst : IrInstruction) : UEState :=
  if inst.op = .STORE then
    match inst.opr0 with
    | some (.var v) => { st with varKills := st.varKills.erase v, inMem := st.inMem.erase v }
    | _ => st
  else if inst.op = .UNLOAD then
    match inst.opr0 with
    | some (.var v) => { st with inMem := st.inMem.erase v }
    | _ => st
  else if inst.op = .LOAD then
    match inst.opr0 with
    | some (.var v) => { st with inMem := insert v st.inMem }
    | _ => st
  else
    let st1 := inst.readSlots.foldl ueReadVar st
    let st2 := if inst.op.hasExtraOperands then
        (inst.extra.map some).foldl ueReadVar st1
      else st1
    if inst.op.isOpcodeAssign then
      match inst.opr0 with
      | some (.var v) => { st2 with varKills := insert v st2.varKills }
      | _ => st2
    else st2

/-- The per-block `ue_var` / `var_kill` computation. -/
def computeUEVarAndVarKill (blk : BasicBlock) : UEState :=
  blk.insts.foldl ueStep {}

/-- `_ue_vars[blk.id]`. -/
def ueVarOf (blk : BasicBlock) : Finset IrVarId := (computeUEVarAndVarKill blk).ueVar

/-- `_var_kills[blk.id]`. -/
def varKillOf (blk : BasicBlock) : Finset IrVarId := (computeUEVarAndVarKill blk).varKills

/-- The two add-loops of `LiveAnalyzer._compute_fragment` for one
successor: all of its upward-exposed variables plus its live-out
variables that it does not kill. (A successor id absent from the CFG
would be a `KeyError` in the source; it contributes nothing here.) -/
def succContrib (cfg : ControlFlowGraph) (frags : Nat → Finset IrVarId)
    (sid : Nat) : Finset IrVarId :=
  match cfg.findBlock sid with
  | some s => ueVarOf s ∪ (frags sid \ varKillOf s)
  | none => ∅

/-- Embeds the body of `LiveAnalyzer._compute_fragment`: the recomputed
`live_out` of a block, accumulated successor by successor. -/
def liveTransfer (cfg : ControlFlowGraph) (frags : Nat → Finset IrVarId)
    (blk : BasicBlock) : Finset IrVarId :=
  blk.next.foldl (fun acc sid => acc ∪ succContrib cfg frags sid) ∅

/-- Fragment lookup in the association list (`_get_fragment`). -/
def fragsGet (fr : List (Nat × Finset IrVarId)) (bid : Nat) : Finset IrVarId :=
  ((fr.find? (fun e => e.1 = bid)).map Prod.snd).getD ∅

/-- Fragment overwrite in the association list. -/
def fragsUpdate (fr : List (Nat × Finset IrVarId)) (bid : Nat)
    (v : Finset IrVarId) : List (Nat × Finset IrVarId) :=
  fr.map (fun e => if e.1 = bid then (bid, v) else e)

/-- One pass of the `while changed` loop of `IterativeAnalyzer._solve`
for the live analysis: every block's fragment is recomputed against the
current fragments (in-place updates are visible to later blocks in the
same pass) and the modified flag is accumulated. -/
def livePass (cfg : ControlFlowGraph) (fr : List (Nat × Finset IrVarId)) :
    List (Nat × Finset IrVarId) × Bool :=
  cfg.blocks.foldl (fun st blk =>
    let lo := liveTransfer cfg (fragsGet st.1) blk
    if lo ≠ fragsGet st.1 blk.id then (fragsUpdate st.1 blk.id lo, true)
    else (st.1, st.2)) (fr, false)

/-- The `while changed` loop, with fuel. -/
def liveSolveAux (cfg : ControlFlowGraph) :
    Nat → List (Nat × Finset IrVarId) → List (Nat × Finset IrVarId)
  | 0, fr => fr
  | n + 1, fr =>
    let step := livePass cfg fr
    if step.2 then liveSolveAux cfg n step.1 else step.1

/-- Fuel bound for the solver: each changed pass grows some live-out set,
whose elements are drawn from the variables occurring in the CFG. -/
def liveFuel (cfg : ControlFlowGraph) : Nat :=
  1 + cfg.blocks.length *
    (1 + (cfg.blocks.map (fun b =>
      (b.insts.map (fun i => 3 + i.extra.length)).sum)).sum)

/-- Embeds `LiveAnalyzer.analyze`: fragments are initialized empty for
every block and iterated to a fixed point; the result maps each block id
to its live-out set (`get_live_out` of a missing id is the empty set). -/
def liveAnalyze (cfg : ControlFlowGraph) : List (Nat × Finset IrVarId) :=
  liveSolveAux cfg (liveFuel cfg)
    (cfg.blocks.map (fun b => (b.id, (∅ : Finset IrVarId))))

/-- CFG for the C1 witness: `ASSIGN v7, 5 ; JMP blk2` then `RET v7`. -/
def c1wCfg : ControlFlowGraph :=
  { type := .NORMAL, root := 1,
    blocks :=
      [{ id := 1,
         insts := [{ op := .ASSIGN, opr0 := some (.var 7), opr1 := some (.const 5) },
                   { op := .JMP, opr0 := some (.blockRef 2) }],
         next := [2] },
       { id := 2,
         insts := [{ op := .RET, opr0 := some (.var 7) }],
         prev := [1] }] }

/-- The live-out fragments at the solver's fixed point for `c1wCfg`. -/
def c1wFrags : Nat → Finset IrVarId := fun bid => if bid = 1 then {7} else ∅

/-! ## Register allocation (src/ir/allocation)

Python dictionaries keyed by integers become insertion-ordered
association lists (`alGet?` / `alSet` preserve the position of an
existing key, as dict assignment does). A live range — a Python `set` of
variable ids — becomes a duplicate-free list with membership-checked
insertion: the code only ever tests membership, iterates to union and to
copy, and compares ranges via `tuple(...)` dict keys, where equal sets
are the same object in every reachable state, so list equality coincides
with the tuple equality the source relies on. -/

/-- Dict lookup `m[k]` (missing key: `none`, a `KeyError` in Python). -/
def alGet? {α : Type} (m : List (Nat × α)) (k : Nat) : Option α :=
  (m.find? (fun e => e.1 = k)).map Prod.snd

/-- Dict assignment `m[k] = v`: overwrite in place or append. -/
def alSet {α : Type} (m : List (Nat × α)) (k : Nat) (v : α) : List (Nat × α) :=
  if (m.find? (fun e => e.1 = k)).isSome then
    m.map (fun e => if e.1 = k then (k, v) else e)
  else m ++ [(k, v)]

/-- A live range: `set.add` keeps one copy of each member. -/
def lrAdd (lr : List IrVarId) (v : IrVarId) : List IrVarId :=
  if v ∈ lr then lr else lr ++ [v]

/-- Embeds `RegisterAllocation`: the `_color_map` dictionary. -/
structure RegisterAllocation where
  colorMap : List (IrVarId × Nat)
deriving DecidableEq, Repr

/-- Embeds `RegisterAllocation.get_color`; the assertion "variable has no
color" becomes `none`. -/
def RegisterAllocation.getColor (r : RegisterAllocation) (v : IrVarId) : Option Nat :=
  alGet? r.colorMap v

/-! ### Undirected (interference) graph (src/ir/allocation/undirected_graph.py) -/

/-- Embeds `UndirectedGraph.Node`: its value and adjacency set (kept as a
duplicate-free list; only membership, size and iteration-to-union are
observed). -/
structure UGNode where
  value : Nat
  nodes : List Nat := []
deriving DecidableEq, Repr

/-- Embeds `UndirectedGraph`: the insertion-ordered node list (`node_map`
is recovered by searching values, which the callers keep unique). -/
structure UGraph where
  nodes : List UGNode := []
deriving DecidableEq, Repr

/-- `add_node`. -/
def UGraph.addNode (g : UGraph) (val : Nat) : UGraph :=
  { nodes := g.nodes ++ [{ value := val }] }

/-- `add_edge`: inserts each endpoint into the other's adjacency set. -/
def UGraph.addEdge (g : UGraph) (a b : Nat) : UGraph :=
  { nodes := g.nodes.map (fun n =>
      let n1 := if n.value = a then { n with nodes := lrAdd n.nodes b } else n
      if n1.value = b then { n1 with nodes := lrAdd n1.nodes a } else n1) }

/-- `remove_node`: drops the node and its incidences. -/
def UGraph.removeNode (g : UGraph) (xid : Nat) : UGraph :=
  { nodes := (g.nodes.filter (fun n => n.value ≠ xid)).map
      (fun n => { n with nodes := n.nodes.filter (fun m => m ≠ xid) }) }

/-- `has_less_k`. -/
def UGraph.hasLessK (g : UGraph) (k : Nat) : Bool :=
  g.nodes.any (fun n => n.nodes.length < k)

/-- `find_less_k` (its trailing assertion is unreachable after a
successful `has_less_k`). -/
def UGraph.findLessK (g : UGraph) (k : Nat) : Option Nat :=
  (g.nodes.find? (fun n => n.nodes.length < k)).map (fun n => n.value)

/-- `get_node`. -/
def UGraph.getNode (g : UGraph) (xid : Nat) : Option UGNode :=
  g.nodes.find? (fun n => n.value = xid)

/-- `BasicRegisterAllocator._pick_constrained_node`: the first remaining
node. -/
def UGraph.pickConstrainedNode (g : UGraph) : Option Nat :=
  g.nodes.head?.map (fun n => n.value)

/-! ### Live-range discovery (`_discover_live_ranges`) -/

/-- One phi instruction of the first discovery loop: the destination and
every argument are merged into a fresh range (unioning each argument's
previously recorded range), and the map entries of the destination and of
the arguments — but, famously, not of the other members of those previous
ranges — are repointed at it. -/
def phiArgFold (lrMap : List (Nat × List IrVarId)) (lr : List IrVarId)
    (opr : IrOperand) : List IrVarId :=
  match opr with
  | .var o =>
    match alGet? lrMap o with
    | some oprLr => oprLr.foldl lrAdd lr
    | none => lrAdd lr o
  | _ => lr

def phiStep (lrMap : List (Nat × List IrVarId)) (inst : IrInstruction) :
    List (Nat × List IrVarId) :=
  if inst.op ≠ .ASSIGN_PHI then lrMap else
  match inst.opr0 with
  | some (.var destVar) =>
    let lr := inst.extra.foldl (phiArgFold lrMap) [destVar]
    let lrMap1 := inst.extra.foldl (fun m opr =>
      match opr with
      | .var o => alSet m o lr
      | _ => m) lrMap
    alSet lrMap1 destVar lr
  | _ => lrMap

/-- The first discovery loop over all phis of the CFG. -/
def phiFold (cfg : ControlFlowGraph) : List (Nat × List IrVarId) :=
  cfg.blocks.foldl (fun m b => b.insts.foldl phiStep m) []

/-- The `for p in lr_map` indexing loop: every entry's range is appended
(duplicates included) and all its members are repointed at the new index;
later iterations overwrite earlier ones. -/
def indexPass (lrMap : List (Nat × List IrVarId)) :
    List (Nat × Nat) × List (List IrVarId) :=
  lrMap.foldl (fun st e =>
    (e.2.foldl (fun m v => alSet m v st.2.length) st.1, st.2 ++ [e.2])) ([], [])

/-- The "variables that weren't handled" loop: every assigned variable
and every `LOAD` destination receives a singleton range if unmapped. -/
def unhandledPass (cfg : ControlFlowGraph)
    (st : List (Nat × Nat) × List (List IrVarId)) :
    List (Nat × Nat) × List (List IrVarId) :=
  cfg.blocks.foldl (fun st b => b.insts.foldl (fun st inst =>
    if inst.op.isOpcodeAssign || inst.op = .LOAD then
      match inst.opr0 with
      | some (.var v) =>
        if (alGet? st.1 v).isSome then st
        else (alSet st.1 v st.2.length, st.2 ++ [[v]])
      | _ => st
    else st) st) st

/-- Embeds `_nub_live_ranges`: deduplicate equal ranges, compacting
indices (the defaults on the two lookups are unreachable: every stored
index is below the range-list length, and every range was folded into
the dedup table). -/
def nubPass (st : List (Nat × Nat) × List (List IrVarId)) :
    List (Nat × Nat) × List (List IrVarId) :=
  let lrs := st.2.foldl (fun acc lr =>
    if (acc.find? (fun e => e.1 = lr)).isSome then acc
    else acc ++ [(lr, acc.length)]) []
  let ordLrs := lrs.map Prod.fst
  let map' := st.1.map (fun e =>
    (e.1, match st.2.get? e.2 with
      | some lr =>
        match lrs.find? (fun q => q.1 = lr) with
        | some q => q.2
        | none => 0
      | none => 0))
  (map', ordLrs)

/-- Embeds `BasicRegisterAllocator._discover_live_ranges`. -/
def discoverLiveRanges (cfg : ControlFlowGraph) :
    List (Nat × Nat) × List (List IrVarId) :=
  nubPass (unhandledPass cfg (indexPass (phiFold cfg)))

/-! ### Interference graph construction (`_build_inference_graph`) -/

/-- `opr.get_id()`: available on variables, labels and block references;
`none` is Python's `AttributeError`. -/
def operandGetId : IrOperand → Option Nat
  | .var v => some v
  | .label l => some l
  | .blockRef b => some b
  | _ => none

/-- `self._live_range_map[v]` with `KeyError` as `Except.error`. -/
def lrIndexOf (lrMap : List (Nat × Nat)) (v : Nat) : Except String Nat :=
  match alGet? lrMap v with
  | some i => .ok i
  | none => .error "KeyError"

/-- One instruction of the backwards scan: `STORE`/`UNLOAD` keep a live
operand live; `LOAD` draws edges from its destination's range to every
other live range and kills it; any other instruction first (if assigning)
draws edges from the destination's range and kills it, then adds each
read slot's range (an unmapped read variable adds live-range index 0, the
source's literal `live_now.add(0)`), then adds each variable extra's
range. The live set is a duplicate-free list. -/
def inferInstStep (lrMap : List (Nat × Nat)) (st : UGraph × List Nat)
    (inst : IrInstruction) : Except String (UGraph × List Nat) :=
  let g := st.1
  let ln := st.2
  if inst.op = .STORE ∨ inst.op = .UNLOAD then
    match inst.opr0 with
    | some (.var v) => do
      let i ← lrIndexOf lrMap v
      pure (g, if ln.contains i then lrAdd ln i else ln)
    | _ => pure (g, ln)
  else if inst.op = .LOAD then
    match inst.opr0.bind operandGetId with
    | some vid => do
      let lrDest ← lrIndexOf lrMap vid
      let g2 := ln.foldl (fun h lr => if lr ≠ lrDest then h.addEdge lrDest lr else h) g
      pure (g2, ln.filter (fun x => x ≠ lrDest))
    | none => .error "AttributeError"
  else do
    let gl1 ←
      if inst.op.isOpcodeAssign then
        match inst.opr0.bind operandGetId with
        | some vid => do
          let lrDest ← lrIndexOf lrMap vid
          let g2 := ln.foldl (fun h lr => if lr ≠ lrDest then h.addEdge lrDest lr else h) g
          pure (g2, ln.filter (fun x => x ≠ lrDest))
        | none => Except.error "AttributeError"
      else pure (g, ln)
    let ln2 := inst.readSlots.foldl (fun l opr =>
      match opr with
      | some (.var v) =>
        match alGet? lrMap v with
        | some i => lrAdd l i
        | none => lrAdd l 0
      | _ => l) gl1.2
    let ln3 ←
      if inst.op.hasExtraOperands then
        inst.extra.foldlM (fun l opr =>
          match opr with
          | .var v => do
            let i ← lrIndexOf lrMap v
            pure (lrAdd l i)
          | _ => pure l) ln2
      else pure ln2
    pure (gl1.1, ln3)

/-- The variable ids occurring in an instruction's slots and extras. -/
def instVars (inst : IrInstruction) : List IrVarId :=
  inst.oprs.filterMap (fun o =>
    match o with
    | some (.var v) => some v
    | _ => none) ++
  inst.extra.filterMap (fun o =>
    match o with
    | .var v => some v
    | _ => none)

/-- Every variable occurrence of the CFG, in block/instruction order.
Live-out sets are always contained in it, so iterating a live-out set —
whose order is unobservable, since only membership of the seeded live
list is ever used — is embedded as filtering this list. -/
def cfgVars (cfg : ControlFlowGraph) : List IrVarId :=
  (cfg.blocks.map (fun b => (b.insts.map instVars).flatten)).flatten

/-- One block of `_build_inference_graph`: seed the live set from the
block's live-out variables and scan the instructions in reverse. -/
def inferBlockStep (lrMap : List (Nat × Nat)) (liveRes : List (Nat × Finset IrVarId))
    (varUniverse : List IrVarId) (g : UGraph) (blk : BasicBlock) :
    Except String UGraph := do
  let ln0 ← (varUniverse.filter (fun v => v ∈ fragsGet liveRes blk.id)).foldlM
    (fun l v => do
      let i ← lrIndexOf lrMap v
      pure (lrAdd l i)) ([] : List Nat)
  let gl ← blk.insts.reverse.foldlM (inferInstStep lrMap) (g, ln0)
  pure gl.1

/-- Embeds `_build_inference_graph`: one node per live range, then the
backwards per-block scan; liveness is computed by `LiveAnalyzer` on the
current CFG. -/
def buildInferenceGraph (cfg : ControlFlowGraph) (lrMap : List (Nat × Nat))
    (numRanges : Nat) : Except String UGraph :=
  let g0 := (List.range numRanges).foldl UGraph.addNode {}
  let liveRes := liveAnalyze cfg
  cfg.blocks.foldlM (inferBlockStep lrMap liveRes (cfgVars cfg)) g0

/-! ### Simplify and select (`_color_graph`) -/

/-- The elimination loop: repeatedly clone-and-remove a node of degree
below K (or, failing that, the `_pick_constrained_node` choice, i.e. the
first remaining node), pushing clones on a stack. One unit of fuel per
node removed, so the node count suffices. -/
def elimLoop (k : Nat) : Nat → UGraph → List UGNode → List UGNode
  | 0, _, stk => stk
  | fuel + 1, g, stk =>
    if g.nodes.isEmpty then stk
    else
      let xid := ((if g.hasLessK k then g.findLessK k else g.pickConstrainedNode).getD 0)
      match g.getNode xid with
      | some n => elimLoop k fuel (g.removeNode xid) (stk ++ [n])
      | none => stk

/-- The colour chosen for one reinserted node: the available set starts
as `{0, …, K-1}` and loses each colour already given to a neighbour;
`next(iter(avail))` on a CPython set of small ints yields the least
element. `none` when no colour is available. -/
def colorPick (kcolors : Nat) (node : UGNode) (cmap : List (Nat × Nat)) : Option Nat :=
  ((List.range kcolors).filter (fun c =>
    ¬ node.nodes.any (fun nb => alGet? cmap nb = some c))).head?

/-- The reconstruction loop: pop clones off the stack (the input here is
already reversed into pop order), reinsert each with its edges, and
colour it when a colour is available. -/
def rebuildGo (kcolors : Nat) :
    List UGNode → UGraph → List (Nat × Nat) → UGraph × List (Nat × Nat)
  | [], g, cm => (g, cm)
  | node :: rest, g, cm =>
    let g1 := node.nodes.foldl (fun h x => h.addEdge node.value x) (g.addNode node.value)
    let cm2 := match colorPick kcolors node cm with
      | some col => alSet cm node.value col
      | none => cm
    rebuildGo kcolors rest g1 cm2

/-- Embeds `_pick_node_to_spill`: the first node of the rebuilt graph
with no colour whose live range was not already spilled; it is recorded
as spilled. `none` is the source's `assert False, "node not found"`. -/
def pickNodeToSpill (g : UGraph) (cmap : List (Nat × Nat))
    (lrs : List (List IrVarId)) (spilled : List (List IrVarId)) :
    Option (Nat × List (List IrVarId)) :=
  match g.nodes.find? (fun n =>
      (alGet? cmap n.value).isNone && !(spilled.contains (lrs.getD n.value []))) with
  | some n => some (n.value, spilled ++ [lrs.getD n.value []])
  | none => none

/-- The final loop of `_color_graph`: colour every variable through its
live range (`none` = `KeyError` on a missing node colour). -/
def setColors (lrMap : List (Nat × Nat)) (cmap : List (Nat × Nat)) :
    Option (List (Nat × Nat)) :=
  lrMap.foldlM (fun r e => (alGet? cmap e.2).map (fun c => alSet r e.1 c)) []

/-- Result of one `_color_graph` attempt. -/
inductive ColorOutcome
  | success (res : List (Nat × Nat))
  | spill (lr : List IrVarId) (spilled : List (List IrVarId))
deriving DecidableEq, Repr

/-- Embeds `_color_graph` (minus the spill-code insertion it triggers):
eliminate, rebuild-and-colour, then either colour all variables or pick
a live range to spill. -/
def colorGraph (numColors : Nat) (lrMap : List (Nat × Nat))
    (lrs : List (List IrVarId)) (g : UGraph) (spilled : List (List IrVarId)) :
    Except String ColorOutcome :=
  let stk := elimLoop numColors g.nodes.length g []
  let gcm := rebuildGo numColors stk.reverse {} []
  if gcm.2.length = gcm.1.nodes.length then
    match setColors lrMap gcm.2 with
    | some res => .ok (.success res)
    | none => .error "KeyError"
  else
    match pickNodeToSpill gcm.1 gcm.2 lrs spilled with
    | some pr => .ok (.spill (lrs.getD pr.1 []) pr.2)
    | none => .error "node not found"

/-! ### Spill-code insertion (`_insert_spill_code`) -/

/-- Embeds `_contains_live_range_use`. -/
def containsLiveRangeUse (inst : IrInstruction) (lr : List IrVarId) : Bool :=
  inst.readSlots.any (fun o =>
    match o with
    | some (.var v) => lr.contains v
    | _ => false) ||
  (inst.op.hasExtraOperands && inst.extra.any (fun o =>
    match o with
    | .var v => lr.contains v
    | _ => false))

/-- Replaces the read slots and extras that belong to the spilled live
range with the fresh temporary. -/
def replaceReads (inst : IrInstruction) (lr : List IrVarId) (tmpVar : IrVarId) :
    IrInstruction :=
  let s := if inst.op.isOpcodeAssign then 1 else 0
  let e := inst.op.getOperandCount
  let f := fun (i : Nat) (o : Option IrOperand) =>
    if s ≤ i ∧ i < e then
      match o with
      | some (.var v) => if lr.contains v then some (.var tmpVar) else o
      | _ => o
    else o
  { inst with
    opr0 := f 0 inst.opr0, opr1 := f 1 inst.opr1, opr2 := f 2 inst.opr2,
    extra := if inst.op.hasExtraOperands then
        inst.extra.map (fun o =>
          match o with
          | .var v => if lr.contains v then .var tmpVar else o
          | _ => o)
      else inst.extra }

/-- The `LOAD` pseudo-instruction emitted before a spilled use; the
extras carry the live range's members as the slot's witness. -/
def loadInst (tmpVar : IrVarId) (lr : List IrVarId) : IrInstruction :=
  { op := .LOAD, opr0 := some (.var tmpVar), extra := lr.map .var }

/-- The `STORE` pseudo-instruction emitted after a spilled definition. -/
def storeInst (tmpVar : IrVarId) (lr : List IrVarId) : IrInstruction :=
  { op := .STORE, opr0 := some (.var tmpVar), extra := lr.map .var }

/-- The `UNLOAD` pseudo-instruction releasing a loaded temporary. -/
def unloadInst (tmpVar : IrVarId) : IrInstruction :=
  { op := .UNLOAD, opr0 := some (.var tmpVar) }

/-- One instruction of `_insert_spill_code`: phis touching the range are
dropped; otherwise the destination and the uses in the range are
redirected to a fresh temporary (`base` taken from the first member of
the range, `special` = bumped counter) wrapped in LOAD/STORE/UNLOAD. -/
def spillInst (lr : List IrVarId) (st : List IrInstruction × Nat)
    (inst : IrInstruction) : List IrInstruction × Nat :=
  if inst.op = .ASSIGN_PHI then
    let touches :=
      (match inst.opr0 with
       | some (.var v) => lr.contains v
       | _ => false) ||
      inst.extra.any (fun o =>
        match o with
        | .var v => lr.contains v
        | _ => false)
    if touches then st else (st.1 ++ [inst], st.2)
  else
    let tmpVar := makeVarId (varBase (lr.headD 0)) 0 (st.2 + 1)
    let destHit :=
      inst.op.isOpcodeAssign &&
      (match inst.opr0 with
       | some (.var v) => lr.contains v
       | _ => false)
    let inst1 := if destHit then { inst with opr0 := some (.var tmpVar) } else inst
    let needLoad := containsLiveRangeUse inst1 lr
    let inst2 := if needLoad then replaceReads inst1 lr tmpVar else inst1
    let tmp2 := if needLoad || destHit then st.2 + 1 else st.2
    (st.1 ++ (if needLoad then [loadInst tmpVar lr] else []) ++ [inst2] ++
      (if destHit then [storeInst tmpVar lr]
       else if needLoad then [unloadInst tmpVar] else []), tmp2)

/-- Embeds `_insert_spill_code` over the whole CFG, threading the
temporary counter. -/
def insertSpillCode (cfg : ControlFlowGraph) (lr : List IrVarId) (tmpIdx : Nat) :
    ControlFlowGraph × Nat :=
  let st := cfg.blocks.foldl (fun (st : List BasicBlock × Nat) blk =>
    let out := blk.insts.foldl (spillInst lr) ([], st.2)
    (st.1 ++ [{ blk with insts := out.1 }], out.2)) ([], tmpIdx)
  ({ cfg with blocks := st.1 }, st.2)

/-! ### The allocator loop (`BasicRegisterAllocator.allocate`) -/

/-- The `while not self._color_graph()` loop: each failed attempt spills
a fresh live range and reruns discovery and interference construction.
One unit of fuel per spill; `allocFuel` overapproximates the number of
spillable ranges, and exhaustion is reported as an error (the Python
loop would instead hit the `assert False` in `_pick_node_to_spill` once
no fresh candidate remains). -/
def allocLoop : Nat → ControlFlowGraph → Nat → List (List IrVarId) → Nat →
    Except String (ControlFlowGraph × RegisterAllocation)
  | 0, _, _, _, _ => .error "out of spill candidates"
  | fuel + 1, cfg, numColors, spilled, tmpIdx => do
    let dr := discoverLiveRanges cfg
    let g ← buildInferenceGraph cfg dr.1 dr.2.length
    let oc ← colorGraph numColors dr.1 dr.2 g spilled
    match oc with
    | .success res => .ok (cfg, ⟨res⟩)
    | .spill lr spilled2 =>
      let ct := insertSpillCode cfg lr tmpIdx
      allocLoop fuel ct.1 numColors spilled2 ct.2

/-- Fuel for the spill loop. -/
def allocFuel (cfg : ControlFlowGraph) : Nat :=
  1 + (cfg.blocks.map (fun b => b.insts.length)).sum * 4

/-- Embeds `BasicRegisterAllocator.allocate`: the SSA precondition is
the assertion "CFG must be in SSA form"; on success the (possibly
spill-patched) CFG and the colour map are returned. -/
def allocate (cfg : ControlFlowGraph) (numColors : Nat) :
    Except String (ControlFlowGraph × RegisterAllocation) :=
  if cfg.type ≠ .SSA then .error "CFG must be in SSA form"
  else allocLoop (allocFuel cfg) cfg numColors [] 0

/-- Each map entry's key is a member of its own live range — the
invariant that makes the indexing pass cover every mapped variable. -/
def SelfMem (m : List (Nat × List IrVarId)) : Prop := ∀ e ∈ m, e.1 ∈ e.2

/-- Variables covered by the phi loop of live-range discovery: the
destination or an argument of some phi whose destination is a variable. -/
def PhiVarIn (cfg : ControlFlowGraph) (v : IrVarId) : Prop :=
  ∃ blk ∈ cfg.blocks, ∃ inst ∈ blk.insts, inst.op = .ASSIGN_PHI ∧
    ∃ d, inst.opr0 = some (.var d) ∧ (v = d ∨ IrOperand.var v ∈ inst.extra)

/-- Variables covered by the "weren't handled" loop: assigned
destinations and `LOAD` destinations. -/
def AssignedIn (cfg : ControlFlowGraph) (v : IrVarId) : Prop :=
  ∃ blk ∈ cfg.blocks, ∃ inst ∈ blk.insts,
    (inst.op.isOpcodeAssign = true ∨ inst.op = .LOAD) ∧ inst.opr0 = some (.var v)

/-- The variables the amended C3 claim promises a colour for: assigned
destinations (including phi destinations and `LOAD` destinations) and
arguments of phis whose destination is a variable. -/
def AllocTracked (cfg : ControlFlowGraph) (v : IrVarId) : Prop :=
  AssignedIn cfg v ∨ PhiVarIn cfg v

/-! ### Instruction builders for the concrete examples -/

/-- `dest = φ(args…)`. -/
def mkPhi (dest : Nat) (args : List Nat) : IrInstruction :=
  { op := .ASSIGN_PHI, opr0 := some (.var dest), extra := args.map .var }

/-- A conditional branch in CFG form (comparands are constants so that
they stay out of liveness). -/
def mkJne (target : Nat) : IrInstruction :=
  { op := .JNE, opr0 := some (.blockRef target), opr1 := some (.const 0),
    opr2 := some (.const 0) }

/-- An unconditional jump in CFG form. -/
def mkJmp (target : Nat) : IrInstruction :=
  { op := .JMP, opr0 := some (.blockRef target) }

/-- `d = a + b`. -/
def mkAdd (d a b : Nat) : IrInstruction :=
  { op := .ASSIGN_ADD, opr0 := some (.var d), opr1 := some (.var a),
    opr2 := some (.var b) }

/-- `RET v`. -/
def mkRet (v : Nat) : IrInstruction :=
  { op := .RET, opr0 := some (.var v) }

/-- `d = c` for a constant `c`. -/
def mkSetConst (d : Nat) (c : Int) : IrInstruction :=
  { op := .ASSIGN, opr0 := some (.var d), opr1 := some (.const c) }

/-! ### C2 and C3 -/

/-- SSA CFG exhibiting the live-range aliasing slip: a diamond into
block 4 (`v2 = φ(v1, v1)`), a second diamond into block 7
(`v3 = φ(v2, v2)` then `v4 = φ(v1, v1)`), and `v5 = v2 + v3 ; RET v5`.
Processing the third phi resurrects variable 1's stale pre-union range
`{v1, v2}` and repoints `v1`, `v2`, `v4` at it, stranding `v3` in the
superseded range, so `v3` and `v2` end in different live ranges that
interfere at `v5 = v2 + v3`. -/
def c2Cfg : ControlFlowGraph :=
  { type := .SSA, root := 1, blocks :=
    [ { id := 1, insts := [mkJne 3], next := [3, 2] },
      { id := 2, insts := [mkJmp 4], prev := [1], next := [4] },
      { id := 3, insts := [mkJmp 4], prev := [1], next := [4] },
      { id := 4, insts := [mkPhi 2 [1, 1], mkJne 6], prev := [2, 3], next := [6, 5] },
      { id := 5, insts := [mkJmp 7], prev := [4], next := [7] },
      { id := 6, insts := [mkJmp 7], prev := [4], next := [7] },
      { id := 7, insts := [mkPhi 3 [2, 2], mkPhi 4 [1, 1], mkAdd 5 2 3, mkRet 5],
        prev := [5, 6] } ] }

/-- SSA CFG for the C3 counterexample: `v6 = v7 + v8 ; RET v6`, where
`v7` and `v8` are read but never assigned. -/
def c3cCfg : ControlFlowGraph :=
  { type := .SSA, root := 1,
    blocks := [{ id := 1, insts := [mkAdd 6 7 8, mkRet 6] }] }

/-- SSA CFG for the C3 witness: `v1 = 5 ; RET v1`. -/
def c3wCfg : ControlFlowGraph :=
  { type := .SSA, root := 1,
    blocks := [{ id := 1, insts := [mkSetConst 1 5, mkRet 1] }] }

/-! ## SSA renaming (src/ir/ssa.py, `SsaBuilder._rename_block`)

The per-name counters and subscript stks become association lists; the
in-place operand mutation becomes instruction rebuilding; the two
assertion failures of a read — `KeyError` on a name with no stack and
the explicit "variable used before being defined" on an empty stack —
become `Except.error`. -/

/-- The renaming state: `_counters` and `_stacks`. -/
structure RenameState where
  counters : List (Nat × Nat) := []
  stks : List (Nat × List Nat) := []
deriving DecidableEq, Repr

/-- Embeds `SsaBuilder._new_name`: bump the counter (created at 0) and
push the new subscript on the name's stack (created empty). -/
def newName (st : RenameState) (base : Nat) : RenameState × IrVarId :=
  let cnt := (alGet? st.counters base).getD 0 + 1
  let stk := (alGet? st.stks base).getD []
  (⟨alSet st.counters base cnt, alSet st.stks base (stk ++ [cnt])⟩,
    makeVarId base cnt)

/-- One read of a variable during renaming: `stk = self._stacks[var]`
(`KeyError` if absent), the assertion `len(stk) != 0` with its message,
then `make_var_id(var, stk[-1])`. -/
def renameUse (stks : List (Nat × List Nat)) (v : IrVarId) :
    Except String IrVarId :=
  match alGet? stks v with
  | none => .error "KeyError"
  | some [] => .error "variable used before being defined"
  | some (x :: rest) => .ok (makeVarId v ((x :: rest).getLastD 0))

/-- One operand slot of the renaming loop: a variable in a read slot is
renamed through the stacks, anything else is untouched. -/
def renameSlotStep (stks : List (Nat × List Nat)) (s e i : Nat)
    (o : Option IrOperand) : Except String (Option IrOperand) :=
  if s ≤ i ∧ i < e then
    match o with
    | some (.var v) => (renameUse stks v).map (fun nv => some (IrOperand.var nv))
    | _ => .ok o
  else .ok o

/-- Renames the operand slots with indices in `[s, e)`, propagating the
first failure. -/
def renameSlots (stks : List (Nat × List Nat)) (s e : Nat) :
    Nat → List (Option IrOperand) → Except String (List (Option IrOperand))
  | _, [] => .ok []
  | i, o :: rest =>
    match renameSlotStep stks s e i o with
    | .error msg => .error msg
    | .ok o2 =>
      match renameSlots stks s e (i + 1) rest with
      | .error msg => .error msg
      | .ok rest2 => .ok (o2 :: rest2)

/-- One extras entry of the renaming loop. -/
def renameExtraStep (stks : List (Nat × List Nat)) (o : IrOperand) :
    Except String IrOperand :=
  match o with
  | .var v => (renameUse stks v).map IrOperand.var
  | _ => .ok o

/-- Renames the variable extras, propagating the first failure. -/
def renameExtras (stks : List (Nat × List Nat)) :
    List IrOperand → Except String (List IrOperand)
  | [] => .ok []
  | o :: rest =>
    match renameExtraStep stks o with
    | .error msg => .error msg
    | .ok o2 =>
      match renameExtras stks rest with
      | .error msg => .error msg
      | .ok rest2 => .ok (o2 :: rest2)

/-- Embeds the per-instruction body of `_rename_block`: a phi only
renames its destination (with a fresh subscript); any other instruction
renames its read slots and extras through the current stacks, then — if
it assigns to a variable — renames the destination with a fresh
subscript. -/
def renameInst (st : RenameState) (inst : IrInstruction) :
    Except String (RenameState × IrInstruction) :=
  if inst.op = .ASSIGN_PHI then
    match inst.opr0 with
    | some (.var d) =>
      let p := newName st d
      .ok (p.1, { inst with opr0 := some (.var p.2) })
    | _ => .error "AttributeError"
  else
    match renameSlots st.stks (if inst.op.isOpcodeAssign then 1 else 0)
        inst.op.getOperandCount 0 [inst.opr0, inst.opr1, inst.opr2] with
    | .error msg => .error msg
    | .ok os =>
      match (if inst.op.hasExtraOperands then renameExtras st.stks inst.extra
          else .ok inst.extra) with
      | .error msg => .error msg
      | .ok ex =>
        let inst1 : IrInstruction := { inst with
          opr0 := (os.getD 0 none),
          opr1 := (os.getD 1 none),
          opr2 := (os.getD 2 none),
          extra := ex }
        if inst.op.isOpcodeAssign then
          match inst.opr0 with
          | some (.var d) =>
            let p := newName st d
            .ok (p.1, { inst1 with opr0 := some (.var p.2) })
          | _ => .ok (st, inst1)
        else .ok (st, inst1)

/-- The instruction loop of `_rename_block` over a block's body. -/
def renameInsts (st : RenameState) :
    List IrInstruction → Except String (RenameState × List IrInstruction)
  | [] => .ok (st, [])
  | i :: t =>
    match renameInst st i with
    | .error msg => .error msg
    | .ok p1 =>
      match renameInsts p1.1 t with
      | .error msg => .error msg
      | .ok p2 => .ok (p2.1, p1.2 :: p2.2)

/-- The variable (if any) read by one operand slot. -/
def slotHeadVars (s e i : Nat) (o : Option IrOperand) : List IrVarId :=
  match o with
  | some (.var v) => if s ≤ i ∧ i < e then [v] else []
  | _ => []

/-- The variables the slot loop reads, in processing order. -/
def slotReadVars (s e : Nat) : Nat → List (Option IrOperand) → List IrVarId
  | _, [] => []
  | i, o :: rest => slotHeadVars s e i o ++ slotReadVars s e (i + 1) rest

/-- The variable (if any) read by one extras entry. -/
def extraHeadVars (o : IrOperand) : List IrVarId :=
  match o with
  | .var v => [v]
  | _ => []

/-- All variables read through the extras list. -/
def extraReadVars : List IrOperand → List IrVarId
  | [] => []
  | o :: rest => extraHeadVars o ++ extraReadVars rest

/-- All variables read by one instruction during renaming. -/
def instReadVars (inst : IrInstruction) : List IrVarId :=
  slotReadVars (if inst.op.isOpcodeAssign then 1 else 0) inst.op.getOperandCount 0
    [inst.opr0, inst.opr1, inst.opr2] ++
  (if inst.op.hasExtraOperands then extraReadVars inst.extra else [])

/-! ## DCPU16 lowering (src/ir/translate/dcpu16_translator.py)

`Dcpu16Translator.translate_procedure` first runs the CFG builder, the
SSA transform and the register allocator on the procedure body and then
lowers the allocated CFG to assembly text.  The earlier stages are
embedded above; `translateAllocated` embeds the lowering stage (lines
56-57 and 71-374 of the source), taking the allocated CFG and the
register allocation as inputs.  The mutable translator attributes become
explicit state: `_caller_saved` (a character list threaded through every
`_translate_operand` call), the `i` instruction counter (which the
`STORE`/`LOAD`/spill-`ASSIGN_ADDROF` branches overwrite with a slot
index, exactly as the source does), and the growing `_generated_asm`
(a list of lines).  `_loaded_lrs` is written by `LOAD` but never read
(the only reader is commented out under `UNLOAD`), so it carries no
state here; `_copied_params` is never written, so its lookup in
`_translate_operand` always misses.  Python `assert` failures and
runtime exceptions (the undefined `_to_store_on_call` attribute, calling
`startswith` on a non-string, `list.index` misses) become `.error`. -/

/-- Embeds `Procedure` (src/ir/program.py): name, parameter variable
ids, export flag. -/
structure Procedure where
  name : String
  params : List IrVarId
  exported : Bool
deriving DecidableEq, Repr

/-- A translated operand as `_translate_operand` returns it: Python
hands back the raw `int` of an `IrConst` but a `str` for every other
operand, and the two compare unequal under `==`. -/
inductive TransVal
  | int (i : Int)
  | str (s : String)
deriving DecidableEq, Repr

/-- How Python's f-strings render a translated operand. -/
def TransVal.render : TransVal → String
  | .int i => toString i
  | .str s => s

/-- f-string rendering of a possibly-`None` translated operand. -/
def rendOpt : Option TransVal → String
  | none => "None"
  | some v => v.render

/-- The `_register_mapping` string `'ABCXYZI'`. -/
def registerMapping : List Char := ['A', 'B', 'C', 'X', 'Y', 'Z', 'I']

/-- A one-character Python string. -/
def regStr (r : Char) : String := String.mk [r]

/-- Embeds `_translate_operand`.  Threads the `_caller_saved` character
list; `none` operands come back as Python `None`.  The `get_color`
assertion, an out-of-range color and the final `assert False` become
errors. -/
def translateOperand (params : List IrVarId) (needPrologue : Bool)
    (res : RegisterAllocation) (cs : List Char) (opr : Option IrOperand)
    (deref : Bool) : Except String (Option TransVal × List Char) :=
  match opr with
  | none => .ok (none, cs)
  | some (.const v) => .ok (some (.int v), cs)
  | some (.blockRef b) => .ok (some (.str s!"_blk{b}"), cs)
  | some (.var vid) =>
    if varBase vid ∈ params then
      let index := params.indexOf (varBase vid)
      if needPrologue then .ok (some (.str s!"[J + {index + 1}]"), cs)
      else .ok (some (.str s!"[SP + {index + 1}]"), cs)
    else
      match res.getColor vid with
      | none => .error "variable has no color"
      | some c =>
        match registerMapping.get? c with
        | none => .error "IndexError: register mapping"
        | some r =>
          if (r = 'A' ∨ r = 'B' ∨ r = 'C') ∧ r ∉ cs then
            .ok (some (.str (regStr r)), cs ++ [r])
          else .ok (some (.str (regStr r)), cs)
  | some (.name n) =>
    if deref then .ok (some (.str s!"[{n}]"), cs) else .ok (some (.str n), cs)
  | some (.label _) => .error "invalid operand for translation"
  | some (.offset _) => .error "invalid operand for translation"

/-- The three outcomes of `_check_register_usage`. -/
inductive RegUsage
  | used
  | assignedBeforeUsage
  | notMentioned
deriving DecidableEq, Repr

/-- The operand-slot loop of `_check_register_usage`: translates each
variable slot with `deref=False` (mutating `_caller_saved`) and reports
whether one of them names `register`. -/
def checkOprSlots (params : List IrVarId) (needPrologue : Bool)
    (res : RegisterAllocation) (register : Char) :
    List Char → List (Option IrOperand) → Except String (Bool × List Char)
  | cs, [] => .ok (false, cs)
  | cs, o :: rest =>
    match o with
    | some (.var vid) =>
      match translateOperand params needPrologue res cs (some (.var vid)) false with
      | .error e => .error e
      | .ok (tv, cs1) =>
        if tv = some (.str (regStr register)) then .ok (true, cs1)
        else checkOprSlots params needPrologue res register cs1 rest
    | _ => checkOprSlots params needPrologue res register cs rest

/-- The extra-operand loop of `_check_register_usage`. -/
def checkExtraSlots (params : List IrVarId) (needPrologue : Bool)
    (res : RegisterAllocation) (register : Char) :
    List Char → List IrOperand → Except String (Bool × List Char)
  | cs, [] => .ok (false, cs)
  | cs, o :: rest =>
    match o with
    | .var vid =>
      match translateOperand params needPrologue res cs (some (.var vid)) false with
      | .error e => .error e
      | .ok (tv, cs1) =>
        if tv = some (.str (regStr register)) then .ok (true, cs1)
        else checkExtraSlots params needPrologue res register cs1 rest
    | _ => checkExtraSlots params needPrologue res register cs rest

/-- Embeds `_check_register_usage`: scans instructions for a read of
`register` (slots, then extras), stopping early when the register is
read or assigned. -/
def checkRegisterUsage (params : List IrVarId) (needPrologue : Bool)
    (res : RegisterAllocation) (register : Char) :
    List Char → List IrInstruction → Except String (RegUsage × List Char)
  | cs, [] => .ok (.notMentioned, cs)
  | cs, inst :: rest =>
    match checkOprSlots params needPrologue res register cs inst.readSlots with
    | .error e => .error e
    | .ok (true, cs1) => .ok (.used, cs1)
    | .ok (false, cs1) =>
      match (if inst.op.hasExtraOperands then
          checkExtraSlots params needPrologue res register cs1 inst.extra
        else .ok (false, cs1)) with
      | .error e => .error e
      | .ok (true, cs2) => .ok (.used, cs2)
      | .ok (false, cs2) =>
        if inst.op.isOpcodeAssign then
          match inst.opr0 with
          | some (.var vid) =>
            match translateOperand params needPrologue res cs2 (some (.var vid)) false with
            | .error e => .error e
            | .ok (tv, cs3) =>
              if tv = some (.str (regStr register)) then .ok (.assignedBeforeUsage, cs3)
              else checkRegisterUsage params needPrologue res register cs3 rest
          | _ => checkRegisterUsage params needPrologue res register cs2 rest
        else checkRegisterUsage params needPrologue res register cs2 rest

/-- Fuel bound for the successor-exploration loop of `_should_save_reg`:
a block enters the work list at most once per incoming edge, so twice
the edge count plus the block count strictly bounds the iterations. -/
def shouldSaveFuel (cfg : ControlFlowGraph) : Nat :=
  2 * cfg.blocks.foldl (fun a b => a + b.next.length) 0 + cfg.blocks.length + 2

/-- The `while len(to_explore) != 0` loop of `_should_save_reg`.  The
work list keeps its top at the head (Python appends to and pops from the
end), successors are pushed in order, and the loop's implicit fall-off
returns Python `None`, which the caller treats as false. -/
def shouldSaveLoop (cfg : ControlFlowGraph) (params : List IrVarId)
    (needPrologue : Bool) (res : RegisterAllocation) (register : Char) :
    Nat → List Nat → List BasicBlock → List Char →
    Except String (Bool × List Char)
  | 0, _, _, _ => .error "exploration fuel exhausted"
  | _ + 1, _, [], cs => .ok (false, cs)
  | fuel + 1, explored, blk :: rest, cs =>
    let explored1 := explored ++ [blk.id]
    let toExplore1 := blk.next.foldl (fun stk b =>
        match cfg.findBlock b with
        | some bb => if bb.id ∈ explored1 then stk else bb :: stk
        | none => stk) rest
    match checkRegisterUsage params needPrologue res register cs blk.insts with
    | .error e => .error e
    | .ok (.assignedBeforeUsage, cs1) => .ok (false, cs1)
    | .ok (.used, cs1) => .ok (true, cs1)
    | .ok (.notMentioned, cs1) =>
      shouldSaveLoop cfg params needPrologue res register fuel explored1 toExplore1 cs1

/-- Embeds `_should_save_reg`: checks the rest of the current block
(`insts[i+1:]` with the possibly-clobbered counter `i`), then explores
successor blocks depth-first. -/
def shouldSaveReg (cfg : ControlFlowGraph) (params : List IrVarId)
    (needPrologue : Bool) (res : RegisterAllocation) (i : Nat)
    (blk : BasicBlock) (register : Char) (cs : List Char) :
    Except String (Bool × List Char) :=
  match checkRegisterUsage params needPrologue res register cs (blk.insts.drop (i + 1)) with
  | .error e => .error e
  | .ok (.assignedBeforeUsage, cs1) => .ok (false, cs1)
  | .ok (.used, cs1) => .ok (true, cs1)
  | .ok (.notMentioned, cs1) =>
    let explored := [blk.id]
    let toExplore := blk.next.foldl (fun stk b =>
        match cfg.findBlock b with
        | some bb => if bb.id ∈ explored then stk else bb :: stk
        | none => stk) []
    shouldSaveLoop cfg params needPrologue res register (shouldSaveFuel cfg)
      explored toExplore cs1

/-- The mutable state of the instruction loop: the emitted lines, the
`_caller_saved` list, and the `i` counter. -/
structure TrState where
  lines : List String
  cs : List Char
  i : Nat
deriving DecidableEq, Repr

/-- The shared shape of the commutative binary-op branches (`ADD`,
`MUL`, `MLI`, `BOR`, `AND`, `XOR`): swap so the destination is the
first source when possible, copy otherwise, then operate. -/
def emitCommut (mn : String) (dest o1 o2 : Option TransVal)
    (lines : List String) : List String :=
  let (a, b) := if o2 = dest then (o2, o1) else (o1, o2)
  let d := rendOpt dest
  let ra := rendOpt a
  let rb := rendOpt b
  let lines1 := if dest ≠ a then lines ++ [s!"\tSET {d}, {ra}"] else lines
  lines1 ++ [s!"\t{mn} {d}, {rb}"]

/-- The shared shape of the non-commutative binary-op branches (`SUB`,
`DIV`, `MOD`, `MDI`): the `assert opr2 != dest` guard becomes an
error. -/
def emitNonCommut (mn : String) (dest o1 o2 : Option TransVal)
    (lines : List String) : Except String (List String) :=
  if o2 = dest then .error "TODO: handle this case"
  else
    let d := rendOpt dest
    let r1 := rendOpt o1
    let r2 := rendOpt o2
    let lines1 := if dest ≠ o1 then lines ++ [s!"\tSET {d}, {r1}"] else lines
    .ok (lines1 ++ [s!"\t{mn} {d}, {r2}"])

/-- One conditional-jump pair: the source re-translates `oprs[1]` and
`oprs[2]` (mutating `_caller_saved` again) for each emitted test. -/
def emitCondJump (mn : String) (params : List IrVarId) (needPrologue : Bool)
    (res : RegisterAllocation) (o1 o2 : Option IrOperand)
    (dest : Option TransVal) (lines : List String) (cs : List Char) :
    Except String (List String × List Char) :=
  match translateOperand params needPrologue res cs o1 true with
  | .error e => .error e
  | .ok (a, cs1) =>
    match translateOperand params needPrologue res cs1 o2 true with
    | .error e => .error e
    | .ok (b, cs2) =>
      let ra := rendOpt a
      let rb := rendOpt b
      let d := rendOpt dest
      .ok (lines ++ [s!"\t{mn} {ra}, {rb}", s!"\t\tSET PC, {d}"], cs2)

/-- The common `RET`/`RETN` exit sequence: pop the saved callee-save
registers in reverse push order, tear down the frame when a prologue was
emitted, return. -/
def epilogueLines (toRestore : List Char) (needPrologue : Bool) : List String :=
  toRestore.reverse.map (fun r => let s := regStr r; s!"\tSET {s}, POP")
    ++ (if needPrologue then ["\tSET SP, J", "\tSET J, POP"] else [])
    ++ ["\tSET PC, POP"]

/-- The caller-save loop of the `CALL` branch: iterates the snapshot of
`_caller_saved` taken at loop entry, pushing each register that
`_should_save_reg` approves and remembering it in `saved`. -/
def callSaveGo (cfg : ControlFlowGraph) (params : List IrVarId)
    (needPrologue : Bool) (res : RegisterAllocation) (i : Nat)
    (blk : BasicBlock) :
    List Char → List Char → List Char → List String →
    Except String (List Char × List Char × List String)
  | [], saved, cs, lines => .ok (saved, cs, lines)
  | e :: rest, saved, cs, lines =>
    match shouldSaveReg cfg params needPrologue res i blk e cs with
    | .error err => .error err
    | .ok (true, cs1) =>
      let s := regStr e
      callSaveGo cfg params needPrologue res i blk rest (saved ++ [e]) cs1
        (lines ++ [s!"\tSET PUSH, {s}"])
    | .ok (false, cs1) =>
      callSaveGo cfg params needPrologue res i blk rest saved cs1 lines

/-- The argument-push loop of the `CALL` branch (already-reversed
argument list). -/
def callArgsGo (params : List IrVarId) (needPrologue : Bool)
    (res : RegisterAllocation) :
    List IrOperand → List Char → List String →
    Except String (List Char × List String)
  | [], cs, lines => .ok (cs, lines)
  | e :: rest, cs, lines =>
    match translateOperand params needPrologue res cs (some e) true with
    | .error err => .error err
    | .ok (v, cs1) =>
      let rv := rendOpt v
      callArgsGo params needPrologue res rest cs1 (lines ++ [s!"\tSET PUSH, {rv}"])

/-- Embeds one iteration of the instruction loop of
`translate_procedure` (lines 117-374): translate the three operand
slots, then dispatch on the opcode.  The `ASSIGN_CALL`/`ASSIGN_CALL_PTR`
branch reads the attribute `_to_store_on_call`, which no code ever
defines, so reaching it raises `AttributeError`; the `STORE`, `LOAD`
and spill-`ASSIGN_ADDROF` branches overwrite the loop counter `i` with
the slot index, as the source does. -/
def translateInst (proc : Procedure) (cfg : ControlFlowGraph)
    (res : RegisterAllocation) (needPrologue : Bool)
    (storedLrs : List (List IrOperand)) (toRestore : List Char)
    (blk : BasicBlock) (st : TrState) (inst : IrInstruction) :
    Except String TrState :=
  match translateOperand proc.params needPrologue res st.cs inst.opr0 true with
  | .error e => .error e
  | .ok (dest, csA) =>
  match translateOperand proc.params needPrologue res csA inst.opr1 true with
  | .error e => .error e
  | .ok (opr1, csB) =>
  match translateOperand proc.params needPrologue res csB inst.opr2 true with
  | .error e => .error e
  | .ok (opr2, cs2) =>
  match inst.op with
  | .ASSIGN_ADD | .ASSIGN_SIGNED_ADD =>
    .ok { st with lines := emitCommut "ADD" dest opr1 opr2 st.lines, cs := cs2 }
  | .ASSIGN_SUB | .ASSIGN_SIGNED_SUB =>
    match emitNonCommut "SUB" dest opr1 opr2 st.lines with
    | .error e => .error e
    | .ok l => .ok { st with lines := l, cs := cs2 }
  | .ASSIGN_MUL =>
    .ok { st with lines := emitCommut "MUL" dest opr1 opr2 st.lines, cs := cs2 }
  | .ASSIGN_SIGNED_MUL =>
    if opr2 ≠ some (.int 1) ∧ opr1 ≠ some (.int 1) then
      .ok { st with lines := emitCommut "MLI" dest opr1 opr2 st.lines, cs := cs2 }
    else .ok { st with cs := cs2 }
  | .ASSIGN_DIV =>
    match emitNonCommut "DIV" dest opr1 opr2 st.lines with
    | .error e => .error e
    | .ok l => .ok { st with lines := l, cs := cs2 }
  | .ASSIGN_SIGNED_DIV =>
    match emitNonCommut "DIV" dest opr1 opr2 st.lines with
    | .error e => .error e
    | .ok l => .ok { st with lines := l, cs := cs2 }
  | .ASSIGN_MOD =>
    match emitNonCommut "MOD" dest opr1 opr2 st.lines with
    | .error e => .error e
    | .ok l => .ok { st with lines := l, cs := cs2 }
  | .ASSIGN_SIGNED_MOD =>
    match emitNonCommut "MDI" dest opr1 opr2 st.lines with
    | .error e => .error e
    | .ok l => .ok { st with lines := l, cs := cs2 }
  | .ASSIGN_OR =>
    .ok { st with lines := emitCommut "BOR" dest opr1 opr2 st.lines, cs := cs2 }
  | .ASSIGN_AND =>
    .ok { st with lines := emitCommut "AND" dest opr1 opr2 st.lines, cs := cs2 }
  | .ASSIGN_XOR =>
    .ok { st with lines := emitCommut "XOR" dest opr1 opr2 st.lines, cs := cs2 }
  | .ASSIGN =>
    let d := rendOpt dest
    let r1 := rendOpt opr1
    .ok { st with
      lines := if dest ≠ opr1 then st.lines ++ [s!"\tSET {d}, {r1}"] else st.lines
      cs := cs2 }
  | .ASSIGN_READ =>
    match opr1 with
    | some (.str s) =>
      let d := rendOpt dest
      if s.startsWith "[" then
        .ok { st with lines := st.lines ++ [s!"\tSET {d}, {s}", s!"\tSET {d}, [{d}]"], cs := cs2 }
      else
        .ok { st with lines := st.lines ++ [s!"\tSET {d}, [{s}]"], cs := cs2 }
    | _ => .error "AttributeError: startswith"
  | .WRITE =>
    match dest with
    | some (.str s) =>
      if s.startsWith "[" then .error "shit"
      else
        let r1 := rendOpt opr1
        .ok { st with lines := st.lines ++ [s!"\tSET [{s}], {r1}"], cs := cs2 }
    | _ => .error "AttributeError: startswith"
  | .RET =>
    let d := rendOpt dest
    let lines1 := if dest ≠ some (.str "A") then st.lines ++ [s!"\tSET A, {d}"] else st.lines
    .ok { st with lines := lines1 ++ epilogueLines toRestore needPrologue, cs := cs2 }
  | .RETN =>
    .ok { st with lines := st.lines ++ epilogueLines toRestore needPrologue, cs := cs2 }
  | .JMP =>
    let d := rendOpt dest
    .ok { st with lines := st.lines ++ [s!"\tSET PC, {d}"], cs := cs2 }
  | .JE =>
    match emitCondJump "IFE" proc.params needPrologue res inst.opr1 inst.opr2 dest st.lines cs2 with
    | .error e => .error e
    | .ok (l, cs3) => .ok { st with lines := l, cs := cs3 }
  | .JNE =>
    match emitCondJump "IFN" proc.params needPrologue res inst.opr1 inst.opr2 dest st.lines cs2 with
    | .error e => .error e
    | .ok (l, cs3) => .ok { st with lines := l, cs := cs3 }
  | .JL =>
    match emitCondJump "IFL" proc.params needPrologue res inst.opr1 inst.opr2 dest st.lines cs2 with
    | .error e => .error e
    | .ok (l, cs3) => .ok { st with lines := l, cs := cs3 }
  | .JG =>
    match emitCondJump "IFG" proc.params needPrologue res inst.opr1 inst.opr2 dest st.lines cs2 with
    | .error e => .error e
    | .ok (l, cs3) => .ok { st with lines := l, cs := cs3 }
  | .JGE =>
    match emitCondJump "IFE" proc.params needPrologue res inst.opr1 inst.opr2 dest st.lines cs2 with
    | .error e => .error e
    | .ok (l1, cs3) =>
      match emitCondJump "IFG" proc.params needPrologue res inst.opr1 inst.opr2 dest l1 cs3 with
      | .error e => .error e
      | .ok (l2, cs4) => .ok { st with lines := l2, cs := cs4 }
  | .JLE =>
    match emitCondJump "IFE" proc.params needPrologue res inst.opr1 inst.opr2 dest st.lines cs2 with
    | .error e => .error e
    | .ok (l1, cs3) =>
      match emitCondJump "IFL" proc.params needPrologue res inst.opr1 inst.opr2 dest l1 cs3 with
      | .error e => .error e
      | .ok (l2, cs4) => .ok { st with lines := l2, cs := cs4 }
  | .CALL | .CALL_PTR =>
    match callSaveGo cfg proc.params needPrologue res st.i blk cs2 [] cs2 st.lines with
    | .error e => .error e
    | .ok (saved, cs3, lines1) =>
      match callArgsGo proc.params needPrologue res inst.extra.reverse cs3 lines1 with
      | .error e => .error e
      | .ok (cs4, lines2) =>
        match translateOperand proc.params needPrologue res cs4 inst.opr0
            (if inst.op = .CALL then false else true) with
        | .error e => .error e
        | .ok (tgt, cs5) =>
          let rt := rendOpt tgt
          let lines3 := lines2 ++ [s!"\tJSR {rt}"]
          let n := inst.extra.length
          let lines4 := if n > 0 then lines3 ++ [s!"\tSUB SP, {n}"] else lines3
          let lines5 := lines4 ++ saved.reverse.map (fun e => let s := regStr e; s!"\tSET {s}, POP")
          .ok { st with lines := lines5, cs := cs5 }
  | .ASSIGN_CALL | .ASSIGN_CALL_PTR =>
    .error "AttributeError: _to_store_on_call"
  | .STORE =>
    match List.findIdx? (fun t => t = inst.extra) storedLrs with
    | none => .error "ValueError: tuple not in list"
    | some idx =>
      let d := rendOpt dest
      let n := idx + 1
      .ok { lines := st.lines ++ [s!"\tSET [J - {n}], {d}"], cs := cs2, i := idx }
  | .LOAD =>
    match List.findIdx? (fun t => t = inst.extra) storedLrs with
    | none => .error "ValueError: tuple not in list"
    | some idx =>
      let d := rendOpt dest
      let n := idx + 1
      .ok { lines := st.lines ++ [s!"\tSET {d}, [J - {n}]"], cs := cs2, i := idx }
  | .UNLOAD => .ok { st with cs := cs2 }
  | .ASSIGN_ADDROF =>
    match inst.opr1 with
    | none =>
      match List.findIdx? (fun t => t = inst.extra) storedLrs with
      | none => .error "ValueError: tuple not in list"
      | some idx =>
        let d := rendOpt dest
        let n := idx + 1
        .ok { lines := st.lines ++ [s!"\tSET {d}, J", s!"\tADD {d}, {n}"], cs := cs2, i := idx }
    | some (.var vid) =>
      if varBase vid ∈ proc.params then
        let d := rendOpt dest
        let pidx := proc.params.indexOf (varBase vid)
        let n := pidx + 2
        let lines1 := st.lines ++ [if needPrologue then s!"\tSET {d}, J" else s!"\tSET {d}, SP"]
        .ok { st with lines := lines1 ++ [s!"\tADD {d}, {n}"], cs := cs2 }
      else .error "Tried to addrof a variable which is not on the stack"
    | some (.name nme) =>
      let d := rendOpt dest
      .ok { st with lines := st.lines ++ [s!"\tSET {d}, {nme}"], cs := cs2 }
    | some _ => .error "Invalid operand for addrof"
  | .ASSIGN_PHI => .ok { st with cs := cs2 }
  | _ => .error "Unknown instruction"

/-- The per-block instruction loop: `i = 0`, translate each instruction,
`i += 1` at the end of each iteration (after any clobbering by the
instruction's own branch). -/
def transInstsGo (proc : Procedure) (cfg : ControlFlowGraph)
    (res : RegisterAllocation) (needPrologue : Bool)
    (storedLrs : List (List IrOperand)) (toRestore : List Char)
    (blk : BasicBlock) :
    TrState → List IrInstruction → Except String TrState
  | st, [] => .ok st
  | st, inst :: rest =>
    match translateInst proc cfg res needPrologue storedLrs toRestore blk st inst with
    | .error e => .error e
    | .ok st1 =>
      transInstsGo proc cfg res needPrologue storedLrs toRestore blk
        { st1 with i := st1.i + 1 } rest

/-- The block loop of `translate_procedure`: a `_blk{id}:` label when
the block has predecessors, then the block's instructions. -/
def transBlocksGo (proc : Procedure) (cfg : ControlFlowGraph)
    (res : RegisterAllocation) (needPrologue : Bool)
    (storedLrs : List (List IrOperand)) (toRestore : List Char) :
    List BasicBlock → List String → List Char →
    Except String (List String × List Char)
  | [], lines, cs => .ok (lines, cs)
  | blk :: rest, lines, cs =>
    let bid := blk.id
    let lines1 := if blk.prev ≠ [] then lines ++ [s!"_blk{bid}:"] else lines
    match transInstsGo proc cfg res needPrologue storedLrs toRestore blk
        { lines := lines1, cs := cs, i := 0 } blk.insts with
    | .error e => .error e
    | .ok st => transBlocksGo proc cfg res needPrologue storedLrs toRestore rest st.lines st.cs

/-- The pre-pass over all instructions collecting `_stored_lrs` (the
`tuple(inst.extra)` of every `STORE`, in encounter order); the same scan
sets `_need_prologue`. -/
def storedLrsOf (cfg : ControlFlowGraph) : List (List IrOperand) :=
  cfg.blocks.foldl (fun acc blk =>
    blk.insts.foldl (fun acc2 inst =>
      if inst.op = .STORE then acc2 ++ [inst.extra] else acc2) acc) []

/-- The `_to_restore_on_exit` computation: walk the color map values in
insertion order, keep the first occurrence of each callee-saved register
among `XYZI`. -/
def toRestoreOf (res : RegisterAllocation) : Except String (List Char) :=
  res.colorMap.foldl (fun acc p =>
    match acc with
    | .error e => .error e
    | .ok l =>
      match registerMapping.get? p.2 with
      | none => .error "IndexError: register mapping"
      | some r =>
        if (r = 'X' ∨ r = 'Y' ∨ r = 'Z' ∨ r = 'I') ∧ r ∉ l then .ok (l ++ [r])
        else .ok l) (.ok [])

/-- Embeds the lowering stage of `translate_procedure`: the `.global`
line for exported procedures, the `_need_prologue`/`_stored_lrs` scan,
the `_to_restore_on_exit` selection, the entry label and conditional
prologue, then the block loop. -/
def translateAllocated (proc : Procedure) (cfg : ControlFlowGraph)
    (res : RegisterAllocation) : Except String (List String) :=
  let nm := proc.name
  let lines0 : List String := if proc.exported then [s!".global {nm}"] else []
  let storedLrs := storedLrsOf cfg
  let needPrologue := !storedLrs.isEmpty
  match toRestoreOf res with
  | .error e => .error e
  | .ok toRestore =>
    let lines1 := lines0 ++ [s!"{nm}:"]
    let nStored := storedLrs.length
    let lines2 := if needPrologue then
        lines1 ++ ["\tSET PUSH, J", "\tSET J, SP"]
          ++ toRestore.map (fun r => let s := regStr r; s!"\tSET PUSH, {s}")
          ++ (if nStored > 0 then [s!"\tSUB SP, {nStored}"] else [])
      else lines1
    match transBlocksGo proc cfg res needPrologue storedLrs toRestore cfg.blocks lines2 [] with
    | .error e => .error e
    | .ok (lines, _) => .ok lines

/-- A parameterless, non-exported procedure named `f`, shared by the
lowering examples. -/
def fProc : Procedure := ⟨"f", [], false⟩

/-- A one-block SSA procedure body that needs four simultaneously-live
constants: `t1..t4 := 1..4` (vars 1-4), then `s1 := t1+t2`,
`s2 := s1+t3`, `s3 := s2+t4` (vars 11-13), `RET s3`.  Allocation gives
`t1` color 3, the callee-saved register `X`, and no variable is
spilled, so no prologue is emitted. -/
def c4Cfg : ControlFlowGraph :=
  ⟨.SSA, 1, [⟨1, [mkSetConst 1 1, mkSetConst 2 2, mkSetConst 3 3, mkSetConst 4 4,
    mkAdd 11 1 2, mkAdd 12 11 3, mkAdd 13 12 4, mkRet 13], 0, [], []⟩]⟩

/-- A one-block SSA procedure body with an `ASSIGN_CALL`:
`v1 := call g()`, `RET v1`. -/
def c5Cfg : ControlFlowGraph :=
  ⟨.SSA, 1, [⟨1, [{ op := .ASSIGN_CALL, opr0 := some (.var 1), opr1 := some (.name "g") },
    mkRet 1], 0, [], []⟩]⟩

/-- A one-block SSA procedure body with a spilled live range:
`v8 := 5`, `STORE v8` for live range `(v9)`, `v10 := ADDROF` of that
spill slot (no source operand), `RET v10`. -/
def c6Cfg : ControlFlowGraph :=
  ⟨.SSA, 1, [⟨1, [mkSetConst 8 5, storeInst 8 [9],
    { op := .ASSIGN_ADDROF, opr0 := some (.var 10), extra := [.var 9] },
    mkRet 10], 0, [], []⟩]⟩

/-- A register allocation giving both `v8` and `v10` color 0 (`A`). -/
def c6Res : RegisterAllocation := ⟨[(8, 0), (10, 0)]⟩

/-! ## Theorems -/
namespace Peephole

theorem subThree_length_le (pat) (l : List AsmLine) :
    (subThree pat l).length ≤ l.length := by
  induction l using subThree.induct pat with
  | case1 l1 l2 l3 rest r hr ih =>
    simp only [subThree, hr]
    simp only [List.length_cons]
    omega
  | case2 l1 l2 l3 rest hr ih =>
    simp only [subThree, hr]
    simp only [List.length_cons] at *
    omega
  | case3 l h =>
    have heq : subThree pat l = l := by
      cases l with
      | nil => rfl
      | cons a t =>
        cases t with
        | nil => rfl
        | cons b t2 =>
          cases t2 with
          | nil => rfl
          | cons c t3 => exact absurd rfl (h a b c t3)
    simp [heq]

theorem subTwo_length_le (pat) (l : List AsmLine) :
    (subTwo pat l).length ≤ l.length := by
  induction l using subTwo.induct pat with
  | case1 l1 l2 rest r hr ih =>
    simp only [subTwo, hr]
    simp only [List.length_cons]
    omega
  | case2 l1 l2 rest hr ih =>
    simp only [subTwo, hr]
    simp only [List.length_cons] at *
    omega
  | case3 l h =>
    have heq : subTwo pat l = l := by
      cases l with
      | nil => rfl
      | cons a t =>
        cases t with
        | nil => rfl
        | cons b t2 => exact absurd rfl (h a b t2)
    simp [heq]

theorem subThree_eq_or_lt (pat) (l : List AsmLine) :
    subThree pat l = l ∨ (subThree pat l).length < l.length := by
  induction l using subThree.induct pat with
  | case1 l1 l2 l3 rest r hr ih =>
    right
    simp only [subThree, hr, List.length_cons]
    have := subThree_length_le pat rest
    omega
  | case2 l1 l2 l3 rest hr ih =>
    simp only [subThree, hr]
    rcases ih with h | h
    · left; rw [h]
    · right; simp only [List.length_cons] at *; omega
  | case3 l h =>
    have heq : subThree pat l = l := by
      cases l with
      | nil => rfl
      | cons a t =>
        cases t with
        | nil => rfl
        | cons b t2 =>
          cases t2 with
          | nil => rfl
          | cons c t3 => exact absurd rfl (h a b c t3)
    exact Or.inl heq

theorem subTwo_eq_or_lt (pat) (l : List AsmLine) :
    subTwo pat l = l ∨ (subTwo pat l).length < l.length := by
  induction l using subTwo.induct pat with
  | case1 l1 l2 rest r hr ih =>
    right
    simp only [subTwo, hr, List.length_cons]
    have := subTwo_length_le pat rest
    omega
  | case2 l1 l2 rest hr ih =>
    simp only [subTwo, hr]
    rcases ih with h | h
    · left; rw [h]
    · right; simp only [List.length_cons] at *; omega
  | case3 l h =>
    have heq : subTwo pat l = l := by
      cases l with
      | nil => rfl
      | cons a t =>
        cases t with
        | nil => rfl
        | cons b t2 => exact absurd rfl (h a b t2)
    exact Or.inl heq

/-- Each `_apply` either leaves the text unchanged or strictly shortens it
(every rewrite merges 2 or 3 lines into 1); this is why the `while` loop
of `optimize` terminates. -/
theorem applyRules_eq_or_lt (l : List AsmLine) :
    applyRules l = l ∨ (applyRules l).length < l.length := by
  unfold applyRules
  rcases subThree_eq_or_lt tryDeref1 l with h1 | h1
  · rw [h1]
    rcases subThree_eq_or_lt tryDeref2 l with h2 | h2
    · rw [h2]
      exact subTwo_eq_or_lt tryTwoSame l
    · right
      have := subTwo_length_le tryTwoSame (subThree tryDeref2 l)
      omega
  · right
    have h2 := subThree_length_le tryDeref2 (subThree tryDeref1 l)
    have h3 := subTwo_length_le tryTwoSame (subThree tryDeref2 (subThree tryDeref1 l))
    omega

theorem optimizeAux_fixed : ∀ (fuel : Nat) (l : List AsmLine), l.length < fuel →
    applyRules (optimizeAux fuel l) = optimizeAux fuel l := by
  intro fuel
  induction fuel with
  | zero => intro l h; omega
  | succ n ih =>
    intro l h
    simp only [optimizeAux]
    by_cases hfix : applyRules l = l
    · simp [hfix]
    · simp only [hfix, if_neg hfix]
      rcases applyRules_eq_or_lt l with h' | h'
      · exact absurd h' hfix
      · exact ih (applyRules l) (by omega)

/-- The result of `optimize` is a fixed point of `_apply`. -/
theorem optimize_fixed (l : List AsmLine) :
    applyRules (optimize l) = optimize l :=
  optimizeAux_fixed (l.length + 1) l (by omega)

/-- C9: running the peephole optimizer on its own output is a no-op:
`optimize` iterates `_apply` to a fixed point, so a second run finds its
input already fixed and returns it unchanged. -/
theorem c9_optimize_idempotent (l : List AsmLine) :
    optimize (optimize l) = optimize l := by
  have h := optimize_fixed l
  generalize hr : optimize l = r at h ⊢
  simp [optimize, optimizeAux, h]

/-- C8: on two consecutive `ADD A, k` lines with immediates 2 and 3 the
optimizer produces `ADD A, 4`, not the `ADD A, 5` the combined-immediate
rule promises: `_two_same_ops` reads the group `constant_1` into both
`const1` and `const2`, so the second immediate never enters the result
(`SUB` therefore always folds to 0 and `MUL` squares the first constant,
as the other two conjuncts show). -/
theorem c8_two_same_ops_eval :
    optimize [.arith .ADD .A 2, .arith .ADD .A 3] = [.arith .ADD .A 4] ∧
    optimize [.arith .SUB .B 5, .arith .SUB .B 2] = [.arith .SUB .B 0] ∧
    optimize [.arith .MUL .C 2, .arith .MUL .C 3] = [.arith .MUL .C 4] := by
  refine ⟨?_, ?_, ?_⟩ <;> rfl
end Peephole

theorem setLastOpr0_ne_nil (insts : List IrInstruction) (o : IrOperand)
    (h : insts ≠ []) : setLastOpr0 insts o ≠ [] := by
  unfold setLastOpr0
  split
  · exact h
  · simp

theorem updEntry_pres (bs : List (Nat × BasicBlock)) (key : Nat)
    (f : BasicBlock → BasicBlock)
    (hf : ∀ b : BasicBlock, b.insts ≠ [] → (f b).insts ≠ [])
    (h : ∀ e ∈ bs, e.2.insts ≠ []) : ∀ e ∈ updEntry bs key f, e.2.insts ≠ [] := by
  intro e he
  simp only [updEntry, List.mem_map] at he
  obtain ⟨a, ha, rfl⟩ := he
  split
  · exact hf _ (h a ha)
  · exact h a ha

theorem linkBranchStep_pres (bs : List (Nat × BasicBlock)) (p : Nat)
    (blk : BasicBlock) (lastI : IrInstruction)
    (h : ∀ e ∈ bs, e.2.insts ≠ []) :
    ∀ e ∈ linkBranchStep bs p blk lastI, e.2.insts ≠ [] := by
  unfold linkBranchStep
  split
  · split
    · dsimp only
      split
      · exact updEntry_pres _ _ _
          (fun b hb => setLastOpr0_ne_nil _ _ hb)
          (updEntry_pres _ _ _ (fun b hb => hb) h)
      · exact h
    · exact h
  · exact h

theorem linkFallThrough_pres (bs1 : List (Nat × BasicBlock)) (p : Nat)
    (blk : BasicBlock) (lastI : IrInstruction)
    (h : ∀ e ∈ bs1, e.2.insts ≠ []) :
    ∀ e ∈ linkFallThrough bs1 p blk lastI, e.2.insts ≠ [] := by
  unfold linkFallThrough
  split
  · dsimp only
    split
    · exact updEntry_pres _ _ _ (fun b hb => hb)
        (updEntry_pres _ _ _ (fun b hb => hb) h)
    · exact h
  · exact h

theorem linkOne_pres (bs : List (Nat × BasicBlock)) (p : Nat)
    (h : ∀ e ∈ bs, e.2.insts ≠ []) : ∀ e ∈ linkOne bs p, e.2.insts ≠ [] := by
  unfold linkOne
  split
  · exact h
  · split
    · exact h
    · exact linkFallThrough_pres _ _ _ _ (linkBranchStep_pres _ _ _ _ h)

theorem foldl_linkOne_pres (keys : List Nat) (bs : List (Nat × BasicBlock))
    (h : ∀ e ∈ bs, e.2.insts ≠ []) : ∀ e ∈ keys.foldl linkOne bs, e.2.insts ≠ [] := by
  induction keys generalizing bs with
  | nil => exact h
  | cons k ks ih => exact ih _ (linkOne_pres bs k h)

theorem groupBlocks_nonempty (fuel : Nat) : ∀ (nid p : Nat) (l : List (IrInstruction × Bool)),
    ∀ e ∈ groupBlocks fuel nid p l, e.2.insts ≠ [] := by
  induction fuel with
  | zero =>
    intro nid p l e he
    cases l <;> simp [groupBlocks] at he
  | succ n ih =>
    intro nid p l e he
    cases l with
    | nil => simp [groupBlocks] at he
    | cons hd tl =>
      obtain ⟨inst, flag⟩ := hd
      simp only [groupBlocks, List.mem_cons] at he
      rcases he with rfl | he
      · simp
      · exact ih _ _ _ e he

/-- C7 counterexample: on the empty instruction list `build_graph`
returns a CFG whose single root block holds no instructions, refuting
"every basic block in the CFG returned by the CFG builder contains at
least one instruction" for that input. -/
theorem c7_counterexample :
    ∃ cfg, buildGraph [] = some cfg ∧ ∃ blk ∈ cfg.blocks, blk.insts = [] :=
  ⟨{ type := .NORMAL, root := 1, blocks := [{ id := 1, insts := [] }] }, rfl,
    { id := 1, insts := [] }, List.mem_singleton.mpr rfl, rfl⟩

/-- C7 (amended): for every NONEMPTY input instruction list, every basic
block in the CFG returned by `build_graph` contains at least one
instruction. (The code's explicit empty-input case returns a single
instruction-less root block, so the original "including the empty list"
fails; see the counterexample.) -/
theorem c7_blocks_nonempty (insts : List IrInstruction) (h1 : insts ≠ [])
    (cfg : ControlFlowGraph) (h2 : buildGraph insts = some cfg) :
    ∀ blk ∈ cfg.blocks, blk.insts ≠ [] := by
  intro blk hblk
  unfold buildGraph at h2
  rw [if_neg (by simpa using h1)] at h2
  cases hm : markLeaders insts with
  | none => rw [hm] at h2; simp at h2
  | some flags =>
    rw [hm] at h2
    simp only [Option.map_some', Option.some_inj] at h2
    rw [h2.symm] at hblk
    simp only [List.mem_map] at hblk
    obtain ⟨e, he, rfl⟩ := hblk
    have hbase := foldl_linkOne_pres
      ((groupBlocks insts.length 1 0 (insts.zip flags)).map Prod.fst)
      (groupBlocks insts.length 1 0 (insts.zip flags))
      (groupBlocks_nonempty insts.length 1 0 (insts.zip flags))
    exact hbase e he

/-- Closed instance of `c7_blocks_nonempty` at the one-instruction body
`[RETN]`, with both hypotheses discharged by computation. -/
theorem c7_blocks_nonempty_witness :
    ({ id := 1, insts := [{ op := .RETN }] } : BasicBlock).insts ≠ [] :=
  c7_blocks_nonempty [{ op := .RETN }] (by simp)
    (ControlFlowGraph.mk .NORMAL 1 [{ id := 1, insts := [{ op := .RETN }] }]) rfl
    { id := 1, insts := [{ op := .RETN }] } (by simp)

theorem foldl_union_eq_biUnion (g : Nat → Finset IrVarId) (l : List Nat)
    (acc : Finset IrVarId) :
    l.foldl (fun a b => a ∪ g b) acc = acc ∪ l.toFinset.biUnion g := by
  induction l generalizing acc with
  | nil => simp
  | cons b t ih =>
    simp only [List.foldl_cons, ih, List.toFinset_cons, Finset.biUnion_insert]
    ext x
    simp only [Finset.mem_union]
    tauto

/-- C1: at the fixed point of the live-variable solver (the exit
condition of the `while changed` loop: recomputing every block's
fragment reproduces it) each block's live-out set equals the union over
its successors S of `ue_use(S) ∪ (live_out(S) \ var_kill(S))`, where
`ue_use` and `var_kill` carry the spill bookkeeping of
`_compute_ue_var_and_var_kill`. -/
theorem c1_live_fixed_point (cfg : ControlFlowGraph) (frags : Nat → Finset IrVarId)
    (hfix : ∀ blk ∈ cfg.blocks, liveTransfer cfg frags blk = frags blk.id) :
    ∀ blk ∈ cfg.blocks,
      frags blk.id = blk.next.toFinset.biUnion (succContrib cfg frags) := by
  intro blk hblk
  rw [← hfix blk hblk, liveTransfer, foldl_union_eq_biUnion]
  simp

/-- Closed instance of `c1_live_fixed_point`: on `c1wCfg` the fragments
`c1wFrags` pass the exit condition of the solver loop, and the transfer
equation holds for both blocks. -/
theorem c1_live_fixed_point_witness :
    (∀ blk ∈ c1wCfg.blocks, liveTransfer c1wCfg c1wFrags blk = c1wFrags blk.id) ∧
    ∀ blk ∈ c1wCfg.blocks,
      c1wFrags blk.id = blk.next.toFinset.biUnion (succContrib c1wCfg c1wFrags) :=
  ⟨by decide, c1_live_fixed_point c1wCfg c1wFrags (by decide)⟩

theorem phiArgFold_var (lrMap : List (Nat × List IrVarId)) (lr : List IrVarId)
    (o : IrVarId) :
    phiArgFold lrMap lr (.var o) =
      match alGet? lrMap o with
      | some oprLr => oprLr.foldl lrAdd lr
      | none => lrAdd lr o := rfl

/-! ### Lemmas about the allocator -/

theorem foldl_pres {α β : Type} (step : β → α → β) (P : β → Prop)
    (h : ∀ b a, P b → P (step b a)) :
    ∀ (l : List α) (b : β), P b → P (l.foldl step b) := by
  intro l
  induction l with
  | nil => intro b hb; exact hb
  | cons a t ih => intro b hb; exact ih _ (h b a hb)

theorem foldl_establish {α β : Type} (step : β → α → β) (P : β → Prop)
    (h : ∀ b a, P b → P (step b a)) :
    ∀ (l : List α) (b : β) (a : α), a ∈ l → (∀ b2, P (step b2 a)) →
      P (l.foldl step b) := by
  intro l
  induction l with
  | nil => intro b a ha; exact absurd ha (List.not_mem_nil a)
  | cons x t ih =>
    intro b a ha hest
    rcases List.mem_cons.mp ha with rfl | ha
    · exact foldl_pres step P h t _ (hest b)
    · exact ih _ a ha hest

theorem alGet?_nil {α : Type} (k : Nat) : alGet? ([] : List (Nat × α)) k = none := rfl

theorem alGet?_cons {α : Type} (a : Nat × α) (t : List (Nat × α)) (k : Nat) :
    alGet? (a :: t) k = if a.1 = k then some a.2 else alGet? t k := by
  simp only [alGet?, List.find?]
  by_cases h : a.1 = k
  · simp [h]
  · simp [h]

theorem alGet?_append_single {α : Type} (m : List (Nat × α)) (k k' : Nat) (v : α) :
    alGet? (m ++ [(k, v)]) k' =
      match alGet? m k' with
      | some w => some w
      | none => if k = k' then some v else none := by
  induction m with
  | nil =>
    simp only [List.nil_append, alGet?_cons, alGet?_nil]
  | cons a t ih =>
    simp only [List.cons_append, alGet?_cons, ih]
    by_cases h : a.1 = k' <;> simp [h]

theorem alGet?_map_replace_ne {α : Type} (m : List (Nat × α)) (k k' : Nat) (v : α)
    (hne : k' ≠ k) :
    alGet? (m.map (fun e => if e.1 = k then (k, v) else e)) k' = alGet? m k' := by
  induction m with
  | nil => rfl
  | cons a t ih =>
    simp only [List.map_cons]
    by_cases hak : a.1 = k
    · rw [if_pos hak, alGet?_cons, alGet?_cons, hak,
        if_neg (fun h : k = k' => hne h.symm), if_neg (fun h : k = k' => hne h.symm)]
      exact ih
    · rw [if_neg hak, alGet?_cons, alGet?_cons]
      by_cases h2 : a.1 = k' <;> simp [h2, ih]

theorem alGet?_map_replace_eq {α : Type} (m : List (Nat × α)) (k : Nat) (v : α)
    (hp : (alGet? m k).isSome) :
    alGet? (m.map (fun e => if e.1 = k then (k, v) else e)) k = some v := by
  induction m with
  | nil => simp [alGet?_nil] at hp
  | cons a t ih =>
    simp only [List.map_cons]
    by_cases hak : a.1 = k
    · rw [if_pos hak, alGet?_cons, if_pos rfl]
    · rw [if_neg hak, alGet?_cons, if_neg hak]
      rw [alGet?_cons, if_neg hak] at hp
      exact ih hp

theorem alGet?_alSet {α : Type} (m : List (Nat × α)) (k k' : Nat) (v : α) :
    alGet? (alSet m k v) k' = if k' = k then some v else alGet? m k' := by
  have hiso : (List.find? (fun e => decide (e.1 = k)) m).isSome = (alGet? m k).isSome := by
    simp [alGet?]
  unfold alSet
  by_cases hp : (alGet? m k).isSome
  · rw [if_pos (by rw [hiso]; exact hp)]
    by_cases hk : k' = k
    · subst hk; rw [if_pos rfl]; exact alGet?_map_replace_eq m k' v hp
    · rw [if_neg hk]; exact alGet?_map_replace_ne m k k' v hk
  · rw [if_neg (by rw [hiso]; simpa using hp)]
    rw [alGet?_append_single]
    by_cases hk : k' = k
    · subst hk
      have hnone : alGet? m k' = none := by
        cases h : alGet? m k' with
        | none => rfl
        | some w => rw [h] at hp; simp at hp
      rw [hnone, if_pos rfl]
    · cases h : alGet? m k' with
      | none => simp only [if_neg (fun h2 : k = k' => hk h2.symm), if_neg hk]
      | some w => simp only [if_neg hk]

theorem alGet?_alSet_self {α : Type} (m : List (Nat × α)) (k : Nat) (v : α) :
    alGet? (alSet m k v) k = some v := by
  rw [alGet?_alSet, if_pos rfl]

theorem alSet_dom_mono {α : Type} (m : List (Nat × α)) (k k' : Nat) (v : α)
    (h : (alGet? m k').isSome) : (alGet? (alSet m k v) k').isSome := by
  rw [alGet?_alSet]
  split <;> simp_all

theorem foldl_pres_mem {α β : Type} (step : β → α → β) (P : β → Prop) :
    ∀ (l : List α), (∀ b a, a ∈ l → P b → P (step b a)) →
      ∀ b, P b → P (l.foldl step b) := by
  intro l
  induction l with
  | nil => intro _ b hb; exact hb
  | cons x t ih =>
    intro h b hb
    exact ih (fun b2 a ha => h b2 a (List.mem_cons_of_mem x ha)) _
      (h b x (List.mem_cons_self x t) hb)

theorem foldl_establish_mem {α β : Type} (step : β → α → β) (P : β → Prop) :
    ∀ (l : List α), (∀ b a, a ∈ l → P b → P (step b a)) →
      ∀ (b : β) (a : α), a ∈ l → (∀ b2, P (step b2 a)) →
        P (l.foldl step b) := by
  intro l
  induction l with
  | nil => intro _ b a ha; exact absurd ha (List.not_mem_nil a)
  | cons x t ih =>
    intro h b a ha hest
    rcases List.mem_cons.mp ha with rfl | ha
    · exact foldl_pres_mem step P t
        (fun b2 a2 ha2 => h b2 a2 (List.mem_cons_of_mem _ ha2)) _ (hest b)
    · exact ih (fun b2 a2 ha2 => h b2 a2 (List.mem_cons_of_mem x ha2)) _ a ha hest

theorem mem_lrAdd_self (l : List IrVarId) (v : IrVarId) : v ∈ lrAdd l v := by
  unfold lrAdd
  split
  · assumption
  · simp

theorem mem_lrAdd_of_mem (l : List IrVarId) (v x : IrVarId) (h : x ∈ l) :
    x ∈ lrAdd l v := by
  unfold lrAdd
  split
  · exact h
  · exact List.mem_append_left _ h

theorem foldl_lrAdd_sub (ys : List IrVarId) (x : IrVarId) :
    ∀ acc, x ∈ acc → x ∈ ys.foldl lrAdd acc :=
  fun acc h => foldl_pres_mem lrAdd (fun l => x ∈ l) ys
    (fun b a _ hb => mem_lrAdd_of_mem b a x hb) acc h

theorem foldl_lrAdd_mem (ys : List IrVarId) (y : IrVarId) (hy : y ∈ ys) :
    ∀ acc, y ∈ ys.foldl lrAdd acc :=
  fun acc => foldl_establish_mem lrAdd (fun l => y ∈ l) ys
    (fun b a _ hb => mem_lrAdd_of_mem b a y hb) acc y hy
    (fun b2 => mem_lrAdd_self b2 y)

theorem mem_alSet {α : Type} (m : List (Nat × α)) (k : Nat) (v : α) (e : Nat × α)
    (he : e ∈ alSet m k v) : e = (k, v) ∨ e ∈ m := by
  unfold alSet at he
  split at he
  · simp only [List.mem_map] at he
    obtain ⟨a, ha, hae⟩ := he
    by_cases hk : a.1 = k
    · rw [if_pos hk] at hae; exact Or.inl hae.symm
    · rw [if_neg hk] at hae; exact Or.inr (hae ▸ ha)
  · rcases List.mem_append.mp he with h | h
    · exact Or.inr h
    · exact Or.inl (List.mem_singleton.mp h)

theorem alGet?_mem {α : Type} (m : List (Nat × α)) (k : Nat) (w : α)
    (h : alGet? m k = some w) : (k, w) ∈ m := by
  induction m with
  | nil => simp [alGet?_nil] at h
  | cons a t ih =>
    rw [alGet?_cons] at h
    by_cases hk : a.1 = k
    · rw [if_pos hk] at h
      have : a = (k, w) := by
        obtain ⟨a1, a2⟩ := a
        simp at hk h
        exact Prod.ext hk h
      exact this ▸ List.mem_cons_self a t
    · rw [if_neg hk] at h
      exact List.mem_cons_of_mem a (ih h)

theorem phiArgFold_sub (lrMap : List (Nat × List IrVarId)) (x : IrVarId)
    (extras : List IrOperand) :
    ∀ acc, x ∈ acc → x ∈ extras.foldl (phiArgFold lrMap) acc := by
  intro acc h
  refine foldl_pres_mem (phiArgFold lrMap) (fun l => x ∈ l) extras ?_ acc h
  intro b a _ hb
  cases a with
  | var o =>
    rw [phiArgFold_var]
    cases ho : alGet? lrMap o with
    | some oprLr => exact foldl_lrAdd_sub oprLr x b hb
    | none => exact mem_lrAdd_of_mem b o x hb
  | const c => exact hb
  | label l => exact hb
  | offset o => exact hb
  | name n => exact hb
  | blockRef b2 => exact hb

theorem phiArgFold_mem (lrMap : List (Nat × List IrVarId))
    (hself : SelfMem lrMap) (o : IrVarId) (extras : List IrOperand)
    (ho : IrOperand.var o ∈ extras) :
    ∀ acc, o ∈ extras.foldl (phiArgFold lrMap) acc := by
  intro acc
  refine foldl_establish_mem (phiArgFold lrMap) (fun l => o ∈ l) extras ?_ acc
    (.var o) ho ?_
  · intro b a _ hb
    cases a with
    | var o2 =>
      rw [phiArgFold_var]
      cases ho2 : alGet? lrMap o2 with
      | some oprLr => exact foldl_lrAdd_sub oprLr o b hb
      | none => exact mem_lrAdd_of_mem b o2 o hb
    | const c => exact hb
    | label l => exact hb
    | offset off => exact hb
    | name n => exact hb
    | blockRef b2 => exact hb
  · intro b2
    rw [phiArgFold_var]
    cases ho2 : alGet? lrMap o with
    | some oprLr => exact foldl_lrAdd_mem oprLr o (hself _ (alGet?_mem _ _ _ ho2)) b2
    | none => exact mem_lrAdd_self b2 o

theorem phiStep_selfMem (lrMap : List (Nat × List IrVarId)) (inst : IrInstruction)
    (h : SelfMem lrMap) : SelfMem (phiStep lrMap inst) := by
  unfold phiStep
  split
  · exact h
  next hphi =>
    match hd : inst.opr0 with
    | some (.var destVar) =>
      dsimp only
      have hdlr : destVar ∈ inst.extra.foldl (phiArgFold lrMap) [destVar] :=
        phiArgFold_sub lrMap destVar inst.extra [destVar] (by simp)
      have hext : ∀ o, IrOperand.var o ∈ inst.extra →
          o ∈ inst.extra.foldl (phiArgFold lrMap) [destVar] :=
        fun o ho => phiArgFold_mem lrMap h o inst.extra ho [destVar]
      intro e he
      rcases mem_alSet _ _ _ _ he with rfl | he1
      · exact hdlr
      · have hmap1 : SelfMem (inst.extra.foldl (fun m opr =>
            match opr with
            | .var o => alSet m o (inst.extra.foldl (phiArgFold lrMap) [destVar])
            | _ => m) lrMap) := by
          refine foldl_pres_mem _ SelfMem inst.extra ?_ lrMap h
          intro m a ha hm
          match a with
          | .var o =>
            intro e2 he2
            rcases mem_alSet _ _ _ _ he2 with rfl | he3
            · exact hext o ha
            · exact hm _ he3
          | .const c => exact hm
          | .label l => exact hm
          | .offset off => exact hm
          | .name n => exact hm
          | .blockRef b2 => exact hm
        exact hmap1 _ he1
    | some (.const c) => exact fun e he => h e he
    | some (.label l) => exact fun e he => h e he
    | some (.offset off) => exact fun e he => h e he
    | some (.name n) => exact fun e he => h e he
    | some (.blockRef b2) => exact fun e he => h e he
    | none => exact fun e he => h e he

theorem phiStep_dom_mono (lrMap : List (Nat × List IrVarId)) (inst : IrInstruction)
    (k : Nat) (h : (alGet? lrMap k).isSome) :
    (alGet? (phiStep lrMap inst) k).isSome := by
  unfold phiStep
  split
  · exact h
  next hphi =>
    match hd : inst.opr0 with
    | some (.var destVar) =>
      dsimp only
      refine alSet_dom_mono _ _ _ _ ?_
      refine foldl_pres_mem _ (fun m => (alGet? m k).isSome) inst.extra ?_ lrMap h
      intro m a _ hm
      cases a with
      | var o => exact alSet_dom_mono _ _ _ _ hm
      | const c => exact hm
      | label l => exact hm
      | offset off => exact hm
      | name n => exact hm
      | blockRef b2 => exact hm
    | some (.const c) => exact h
    | some (.label l) => exact h
    | some (.offset off) => exact h
    | some (.name n) => exact h
    | some (.blockRef b2) => exact h
    | none => exact h

theorem phiStep_dom_dest (lrMap : List (Nat × List IrVarId)) (inst : IrInstruction)
    (hphi : inst.op = .ASSIGN_PHI) (d : IrVarId) (hd : inst.opr0 = some (.var d)) :
    (alGet? (phiStep lrMap inst) d).isSome := by
  unfold phiStep
  rw [if_neg (by simp [hphi]), hd]
  dsimp only
  rw [alGet?_alSet_self]
  simp

theorem phiStep_dom_extra (lrMap : List (Nat × List IrVarId)) (inst : IrInstruction)
    (hphi : inst.op = .ASSIGN_PHI) (d : IrVarId) (hd : inst.opr0 = some (.var d))
    (o : IrVarId) (ho : IrOperand.var o ∈ inst.extra) :
    (alGet? (phiStep lrMap inst) o).isSome := by
  unfold phiStep
  rw [if_neg (by simp [hphi]), hd]
  dsimp only
  refine alSet_dom_mono _ _ _ _ ?_
  refine foldl_establish_mem _ (fun m => (alGet? m o).isSome) inst.extra ?_ lrMap
    (.var o) ho ?_
  · intro m a _ hm
    cases a with
    | var o2 => exact alSet_dom_mono _ _ _ _ hm
    | const c => exact hm
    | label l => exact hm
    | offset off => exact hm
    | name n => exact hm
    | blockRef b2 => exact hm
  · intro m2
    rw [alGet?_alSet_self]
    simp

theorem phiFold_selfMem (cfg : ControlFlowGraph) : SelfMem (phiFold cfg) := by
  unfold phiFold
  refine foldl_pres_mem _ SelfMem cfg.blocks ?_ [] (by intro e he; simp at he)
  intro m blk _ hm
  exact foldl_pres_mem _ SelfMem blk.insts
    (fun m2 inst _ hm2 => phiStep_selfMem m2 inst hm2) m hm

theorem phiFold_dom_mono (cfg : ControlFlowGraph) (v : IrVarId) :
    ∀ (m : List (Nat × List IrVarId)), (alGet? m v).isSome →
      (alGet? (cfg.blocks.foldl (fun m b => b.insts.foldl phiStep m) m) v).isSome :=
  fun m h => foldl_pres_mem _ (fun m => (alGet? m v).isSome) cfg.blocks
    (fun m2 blk _ hm2 => foldl_pres_mem _ (fun m => (alGet? m v).isSome) blk.insts
      (fun m3 inst _ hm3 => phiStep_dom_mono m3 inst v hm3) m2 hm2) m h

theorem phiFold_dom (cfg : ControlFlowGraph) (v : IrVarId) (h : PhiVarIn cfg v) :
    (alGet? (phiFold cfg) v).isSome := by
  obtain ⟨blk, hblk, inst, hinst, hphi, d, hd, hv⟩ := h
  unfold phiFold
  refine foldl_establish_mem _ (fun m => (alGet? m v).isSome) cfg.blocks ?_ [] blk hblk ?_
  · intro m b _ hm
    exact foldl_pres_mem _ (fun m => (alGet? m v).isSome) b.insts
      (fun m2 i _ hm2 => phiStep_dom_mono m2 i v hm2) m hm
  · intro m
    refine foldl_establish_mem phiStep (fun m => (alGet? m v).isSome) blk.insts
      (fun m2 i _ hm2 => phiStep_dom_mono m2 i v hm2) m inst hinst ?_
    intro m2
    rcases hv with rfl | hv
    · exact phiStep_dom_dest m2 inst hphi v hd
    · exact phiStep_dom_extra m2 inst hphi d hd v hv

theorem indexPass_dom (lrMap : List (Nat × List IrVarId)) (hself : SelfMem lrMap)
    (k : Nat) (h : (alGet? lrMap k).isSome) :
    (alGet? (indexPass lrMap).1 k).isSome := by
  obtain ⟨w, hw⟩ := Option.isSome_iff_exists.mp h
  have hmem : (k, w) ∈ lrMap := alGet?_mem _ _ _ hw
  have hkw : k ∈ w := hself _ hmem
  unfold indexPass
  refine foldl_establish_mem
    (fun (st : List (Nat × Nat) × List (List IrVarId)) (e : Nat × List IrVarId) =>
      (e.2.foldl (fun m v => alSet m v st.2.length) st.1, st.2 ++ [e.2]))
    (fun st => (alGet? st.1 k).isSome) lrMap ?_ ([], [])
    (k, w) hmem ?_
  · intro st e _ hst
    dsimp only
    exact foldl_pres_mem _ (fun m => (alGet? m k).isSome) e.2
      (fun m v _ hm => alSet_dom_mono _ _ _ _ hm) st.1 hst
  · intro st
    dsimp only
    refine foldl_establish_mem _ (fun m => (alGet? m k).isSome) w ?_ st.1 k hkw ?_
    · intro m v _ hm
      exact alSet_dom_mono _ _ _ _ hm
    · intro m
      rw [alGet?_alSet_self]
      simp

theorem unhandledPass_dom_mono (cfg : ControlFlowGraph)
    (st : List (Nat × Nat) × List (List IrVarId)) (k : Nat)
    (h : (alGet? st.1 k).isSome) : (alGet? (unhandledPass cfg st).1 k).isSome := by
  unfold unhandledPass
  refine foldl_pres_mem _ (fun st => (alGet? st.1 k).isSome) cfg.blocks ?_ st h
  intro st2 blk _ hst
  refine foldl_pres_mem _ (fun st => (alGet? st.1 k).isSome) blk.insts ?_ st2 hst
  intro st3 inst _ hst3
  split
  · match hd : inst.opr0 with
    | some (.var v) =>
      dsimp only
      split
      · exact hst3
      · exact alSet_dom_mono _ _ _ _ hst3
    | some (.const c) => exact hst3
    | some (.label l) => exact hst3
    | some (.offset off) => exact hst3
    | some (.name n) => exact hst3
    | some (.blockRef b2) => exact hst3
    | none => exact hst3
  · exact hst3

theorem unhandledPass_dom (cfg : ControlFlowGraph)
    (st : List (Nat × Nat) × List (List IrVarId)) (v : IrVarId)
    (h : AssignedIn cfg v) : (alGet? (unhandledPass cfg st).1 v).isSome := by
  obtain ⟨blk, hblk, inst, hinst, hop, hd⟩ := h
  unfold unhandledPass
  have hpres : ∀ (st2 : List (Nat × Nat) × List (List IrVarId)) (i : IrInstruction),
      (alGet? st2.1 v).isSome →
      (alGet? (if i.op.isOpcodeAssign || i.op = .LOAD then
          match i.opr0 with
          | some (.var w) =>
            if (alGet? st2.1 w).isSome then st2
            else (alSet st2.1 w st2.2.length, st2.2 ++ [[w]])
          | _ => st2
        else st2).1 v).isSome := by
    intro st2 i hst
    split
    · match hd2 : i.opr0 with
      | some (.var w) =>
        dsimp only
        split
        · exact hst
        · exact alSet_dom_mono _ _ _ _ hst
      | some (.const c) => exact hst
      | some (.label l) => exact hst
      | some (.offset off) => exact hst
      | some (.name n) => exact hst
      | some (.blockRef b2) => exact hst
      | none => exact hst
    · exact hst
  refine foldl_establish_mem _ (fun st => (alGet? st.1 v).isSome) cfg.blocks ?_ st
    blk hblk ?_
  · intro st2 b _ hst
    exact foldl_pres_mem _ (fun st => (alGet? st.1 v).isSome) b.insts
      (fun st3 i _ hst3 => hpres st3 i hst3) st2 hst
  · intro st2
    refine foldl_establish_mem _ (fun st => (alGet? st.1 v).isSome) blk.insts
      (fun st3 i _ hst3 => hpres st3 i hst3) st2 inst hinst ?_
    intro st3
    have hcond : (inst.op.isOpcodeAssign || inst.op = .LOAD) = true := by
      rcases hop with h1 | h1 <;> simp [h1]
    rw [if_pos hcond, hd]
    dsimp only
    split
    next hpresent => exact hpresent
    · rw [alGet?_alSet_self]; simp

theorem alGet?_map_keyfix {α β : Type} (m : List (Nat × α)) (g : Nat × α → β)
    (k : Nat) :
    (alGet? (m.map (fun e => (e.1, g e))) k).isSome = (alGet? m k).isSome := by
  induction m with
  | nil => rfl
  | cons a t ih =>
    rw [List.map_cons, alGet?_cons, alGet?_cons]
    by_cases h : a.1 = k
    · simp [h]
    · simp only [if_neg h]
      exact ih

theorem nubPass_dom (st : List (Nat × Nat) × List (List IrVarId)) (k : Nat)
    (h : (alGet? st.1 k).isSome) : (alGet? (nubPass st).1 k).isSome := by
  unfold nubPass
  dsimp only
  rw [alGet?_map_keyfix]
  exact h

theorem discover_dom (cfg : ControlFlowGraph) (v : IrVarId)
    (h : AllocTracked cfg v) : (alGet? (discoverLiveRanges cfg).1 v).isSome := by
  unfold discoverLiveRanges
  rcases h with h | h
  · exact nubPass_dom _ _ (unhandledPass_dom cfg _ v h)
  · refine nubPass_dom _ _ (unhandledPass_dom_mono cfg _ v ?_)
    exact indexPass_dom (phiFold cfg) (phiFold_selfMem cfg) v (phiFold_dom cfg v h)

theorem colorPick_lt (kcolors : Nat) (node : UGNode) (cm : List (Nat × Nat))
    (c : Nat) (h : colorPick kcolors node cm = some c) : c < kcolors := by
  unfold colorPick at h
  have hmem : c ∈ (List.range kcolors).filter (fun c =>
      ¬ node.nodes.any (fun nb => alGet? cm nb = some c)) :=
    List.mem_of_mem_head? (Option.mem_def.mpr h)
  exact List.mem_range.mp (List.mem_filter.mp hmem).1

theorem rebuildGo_colors (kcolors : Nat) :
    ∀ (stk : List UGNode) (g : UGraph) (cm : List (Nat × Nat)),
      (∀ k c, alGet? cm k = some c → c < kcolors) →
      ∀ k c, alGet? (rebuildGo kcolors stk g cm).2 k = some c → c < kcolors := by
  intro stk
  induction stk with
  | nil => intro g cm h k c hc; exact h k c hc
  | cons node rest ih =>
    intro g cm h k c hc
    rw [rebuildGo] at hc
    refine ih _ _ ?_ k c hc
    intro k2 c2 hc2
    cases hcp : colorPick kcolors node cm with
    | none => rw [hcp] at hc2; exact h k2 c2 hc2
    | some col =>
      rw [hcp] at hc2
      rw [alGet?_alSet] at hc2
      split at hc2
      · injection hc2 with he
        exact he ▸ colorPick_lt kcolors node cm _ hcp
      · exact h _ _ hc2

theorem setColors_go_dom (cmap : List (Nat × Nat)) :
    ∀ (l r res : List (Nat × Nat)),
      l.foldlM (fun r e => (alGet? cmap e.2).map (fun c => alSet r e.1 c)) r =
        some res →
      (∀ k, (alGet? r k).isSome → (alGet? res k).isSome) ∧
      ∀ e ∈ l, (alGet? res e.1).isSome := by
  intro l
  induction l with
  | nil =>
    intro r res h
    simp only [List.foldlM_nil, Option.pure_def, Option.some_inj] at h
    subst h
    exact ⟨fun k hk => hk, by simp⟩
  | cons e t ih =>
    intro r res h
    rw [List.foldlM_cons] at h
    cases hc : alGet? cmap e.2 with
    | none => rw [hc] at h; simp at h
    | some c =>
      rw [hc] at h
      simp only [Option.map_some', Option.some_bind] at h
      obtain ⟨hpres, hall⟩ := ih _ _ h
      refine ⟨fun k hk => hpres k (alSet_dom_mono _ _ _ _ hk), ?_⟩
      intro e2 he2
      rcases List.mem_cons.mp he2 with rfl | he2
      · exact hpres e2.1 (by rw [alGet?_alSet_self]; simp)
      · exact hall e2 he2

theorem setColors_go_vals (cmap : List (Nat × Nat)) (kcolors : Nat)
    (hcm : ∀ k c, alGet? cmap k = some c → c < kcolors) :
    ∀ (l r res : List (Nat × Nat)),
      l.foldlM (fun r e => (alGet? cmap e.2).map (fun c => alSet r e.1 c)) r =
        some res →
      (∀ k c, alGet? r k = some c → c < kcolors) →
      ∀ k c, alGet? res k = some c → c < kcolors := by
  intro l
  induction l with
  | nil =>
    intro r res h hr
    simp only [List.foldlM_nil, Option.pure_def, Option.some_inj] at h
    subst h
    exact hr
  | cons e t ih =>
    intro r res h hr
    rw [List.foldlM_cons] at h
    cases hc : alGet? cmap e.2 with
    | none => rw [hc] at h; simp at h
    | some c =>
      rw [hc] at h
      simp only [Option.map_some', Option.some_bind] at h
      refine ih _ _ h ?_
      intro k2 c2 hc2
      rw [alGet?_alSet] at hc2
      split at hc2
      · cases hc2; exact hcm _ _ hc
      · exact hr _ _ hc2

theorem colorGraph_success_inv (kcolors : Nat) (lrMap : List (Nat × Nat))
    (lrs : List (List IrVarId)) (g : UGraph) (spilled : List (List IrVarId))
    (r : List (Nat × Nat))
    (h : colorGraph kcolors lrMap lrs g spilled = .ok (.success r)) :
    ∃ cmap, setColors lrMap cmap = some r ∧
      ∀ k c, alGet? cmap k = some c → c < kcolors := by
  unfold colorGraph at h
  dsimp only at h
  split at h
  · cases hs : setColors lrMap
        (rebuildGo kcolors (elimLoop kcolors g.nodes.length g []).reverse {} []).2 with
    | none => rw [hs] at h; simp at h
    | some res =>
      rw [hs] at h
      simp only [Except.ok.injEq, ColorOutcome.success.injEq] at h
      subst h
      refine ⟨_, hs, ?_⟩
      refine rebuildGo_colors kcolors _ _ _ ?_
      intro k c hc
      simp [alGet?_nil] at hc
  · cases hp : pickNodeToSpill
        (rebuildGo kcolors (elimLoop kcolors g.nodes.length g []).reverse {} []).1
        (rebuildGo kcolors (elimLoop kcolors g.nodes.length g []).reverse {} []).2 lrs
        spilled with
    | none => rw [hp] at h; simp at h
    | some pr => rw [hp] at h; simp at h

theorem allocLoop_ok_inv : ∀ (fuel : Nat) (cfg : ControlFlowGraph) (kcolors : Nat)
    (spilled : List (List IrVarId)) (tmpIdx : Nat) (cfg' : ControlFlowGraph)
    (res : RegisterAllocation),
    allocLoop fuel cfg kcolors spilled tmpIdx = .ok (cfg', res) →
    ∃ spilled2 g,
      colorGraph kcolors (discoverLiveRanges cfg').1 (discoverLiveRanges cfg').2 g
        spilled2 = .ok (.success res.colorMap) := by
  intro fuel
  induction fuel with
  | zero =>
    intro cfg kcolors sp t cfg' res h
    simp [allocLoop] at h
  | succ n ih =>
    intro cfg kcolors sp t cfg' res h
    unfold allocLoop at h
    simp only [bind, Except.bind] at h
    cases hb : buildInferenceGraph cfg (discoverLiveRanges cfg).1
        (discoverLiveRanges cfg).2.length with
    | error e => rw [hb] at h; dsimp only at h; cases h
    | ok g =>
      rw [hb] at h
      dsimp only at h
      cases hc : colorGraph kcolors (discoverLiveRanges cfg).1
          (discoverLiveRanges cfg).2 g sp with
      | error e => rw [hc] at h; dsimp only at h; cases h
      | ok oc =>
        rw [hc] at h
        dsimp only at h
        cases oc with
        | success r =>
          simp only [Except.ok.injEq, Prod.mk.injEq] at h
          obtain ⟨hcfg, hres⟩ := h
          subst hcfg
          refine ⟨sp, g, ?_⟩
          rw [hc, ← hres]
        | spill lr sp2 => exact ih _ _ _ _ _ _ h

/-- C2: allocation succeeds on `c2Cfg` (no spilling), the final CFG still
contains the phi `v3 = φ(v2, v2)`, and yet its destination `v3` is
coloured 0 while its argument `v2` is coloured 1 — the claimed
"same colour for the phi destination and every argument" fails because
`_discover_live_ranges` updates only the operands' and destination's map
entries, leaving other members of a previously unioned range pointing at
the stale set. -/
theorem c2_phi_gets_two_colors :
    ∃ pr, allocate c2Cfg 7 = Except.ok pr ∧
      (∃ blk ∈ pr.1.blocks, mkPhi 3 [2, 2] ∈ blk.insts) ∧
      pr.2.getColor 3 = some 0 ∧ pr.2.getColor 2 = some 1 := by
  refine ⟨(c2Cfg, ⟨[(4, 1), (2, 1), (1, 1), (3, 0), (5, 0)]⟩), by rfl, by decide,
    by rfl, by rfl⟩

/-- C3 counterexample: allocation returns on `c3cCfg`, variable 7
appears in the final CFG (as a read operand of the add), yet the
returned mapping contains no colour for it (`get_color` would hit the
"variable has no colour" assertion), refuting totality of the mapping on
all variables appearing in the final CFG. -/
theorem c3_counterexample :
    ∃ pr, allocate c3cCfg 7 = Except.ok pr ∧
      (∃ blk ∈ pr.1.blocks, ∃ inst ∈ blk.insts, inst.opr1 = some (.var 7)) ∧
      pr.2.getColor 7 = none := by
  refine ⟨(c3cCfg, ⟨[(6, 0)]⟩), by rfl, by decide, by rfl⟩

/-- C3 (amended): when `allocate(cfg, K)` returns, the returned mapping
assigns a colour in `[0, K)` to every variable of the final CFG that is
an assigned destination (including phi and `LOAD` destinations) or an
argument of a phi whose destination is a variable. (The original claim's
"including variables that appear only as read operands" fails: such
variables receive no live range and no colour — see the
counterexample.) -/
theorem c3_colors_total_on_tracked (cfg : ControlFlowGraph) (kcolors : Nat)
    (cfg' : ControlFlowGraph) (res : RegisterAllocation)
    (hok : allocate cfg kcolors = .ok (cfg', res))
    (v : IrVarId) (htr : AllocTracked cfg' v) :
    ∃ c, res.getColor v = some c ∧ c < kcolors := by
  unfold allocate at hok
  split at hok
  · cases hok
  · obtain ⟨sp2, g, hcg⟩ := allocLoop_ok_inv _ _ _ _ _ _ _ hok
    obtain ⟨cmap, hset, hbound⟩ := colorGraph_success_inv _ _ _ _ _ _ hcg
    have hdom := discover_dom cfg' v htr
    unfold setColors at hset
    obtain ⟨hpres, hall⟩ := setColors_go_dom cmap _ [] _ hset
    obtain ⟨i, hi⟩ := Option.isSome_iff_exists.mp hdom
    have hv := hall (v, i) (alGet?_mem _ _ _ hi)
    obtain ⟨c, hc⟩ := Option.isSome_iff_exists.mp hv
    refine ⟨c, hc, ?_⟩
    exact setColors_go_vals cmap kcolors hbound _ [] _ hset
      (by intro k c2 h2; simp [alGet?_nil] at h2) v c hc

/-- Closed instance of `c3_colors_total_on_tracked` on `c3wCfg`, every
hypothesis discharged by computation. -/
theorem c3_colors_total_witness :
    ∃ c, (RegisterAllocation.mk [(1, 0)]).getColor 1 = some c ∧ c < 7 :=
  c3_colors_total_on_tracked c3wCfg 7 c3wCfg ⟨[(1, 0)]⟩ (by rfl) 1
    (Or.inl ⟨{ id := 1, insts := [mkSetConst 1 5, mkRet 1] }, by simp [c3wCfg],
      mkSetConst 1 5, by simp, Or.inl rfl, rfl⟩)

theorem except_bind_ok {ε α β : Type} (a : α) (f : α → Except ε β) :
    (Except.ok a >>= f) = f a := rfl

theorem except_bind_err {ε α β : Type} (e : ε) (f : α → Except ε β) :
    ((Except.error e : Except ε α) >>= f) = .error e := rfl

theorem renameUse_empty (stks : List (Nat × List Nat)) (v : IrVarId)
    (h : alGet? stks v = some []) :
    renameUse stks v = .error "variable used before being defined" := by
  unfold renameUse
  rw [h]

theorem renameUse_ok (stks : List (Nat × List Nat)) (v : IrVarId)
    (hp : (alGet? stks v).isSome) (hne : alGet? stks v ≠ some []) :
    ∃ nv, renameUse stks v = .ok nv := by
  unfold renameUse
  cases h : alGet? stks v with
  | none => rw [h] at hp; simp at hp
  | some stk =>
    cases stk with
    | nil => exact absurd h hne
    | cons x rest => exact ⟨_, rfl⟩

theorem renameSlotStep_spec (stks : List (Nat × List Nat)) (s e i : Nat)
    (o : Option IrOperand) :
    (∃ v, o = some (IrOperand.var v) ∧ slotHeadVars s e i o = [v] ∧
      renameSlotStep stks s e i o =
        (renameUse stks v).map (fun nv => some (IrOperand.var nv))) ∨
    (slotHeadVars s e i o = [] ∧ renameSlotStep stks s e i o = .ok o) := by
  rcases o with _ | op
  · right; exact ⟨rfl, by unfold renameSlotStep; split <;> rfl⟩
  · cases op with
    | var v =>
      by_cases hg : s ≤ i ∧ i < e
      · exact Or.inl ⟨v, rfl, by simp [slotHeadVars, hg], by simp [renameSlotStep, hg]⟩
      · exact Or.inr ⟨by simp [slotHeadVars, hg], by simp [renameSlotStep, hg]⟩
    | const c => right; exact ⟨rfl, by unfold renameSlotStep; split <;> rfl⟩
    | label l => right; exact ⟨rfl, by unfold renameSlotStep; split <;> rfl⟩
    | offset off => right; exact ⟨rfl, by unfold renameSlotStep; split <;> rfl⟩
    | name n => right; exact ⟨rfl, by unfold renameSlotStep; split <;> rfl⟩
    | blockRef b => right; exact ⟨rfl, by unfold renameSlotStep; split <;> rfl⟩

theorem renameExtraStep_spec (stks : List (Nat × List Nat)) (o : IrOperand) :
    (∃ v, o = IrOperand.var v ∧ extraHeadVars o = [v] ∧
      renameExtraStep stks o = (renameUse stks v).map IrOperand.var) ∨
    (extraHeadVars o = [] ∧ renameExtraStep stks o = .ok o) := by
  cases o with
  | var v => exact Or.inl ⟨v, rfl, rfl, rfl⟩
  | const c => right; exact ⟨rfl, rfl⟩
  | label l => right; exact ⟨rfl, rfl⟩
  | offset off => right; exact ⟨rfl, rfl⟩
  | name n => right; exact ⟨rfl, rfl⟩
  | blockRef b => right; exact ⟨rfl, rfl⟩

theorem renameSlots_err (stks : List (Nat × List Nat)) (s e : Nat) :
    ∀ (os : List (Option IrOperand)) (i : Nat),
      (∀ v ∈ slotReadVars s e i os, (alGet? stks v).isSome) →
      (∃ v ∈ slotReadVars s e i os, alGet? stks v = some []) →
      renameSlots stks s e i os = .error "variable used before being defined" := by
  intro os
  induction os with
  | nil =>
    intro i _ h
    simp [slotReadVars] at h
  | cons o rest ih =>
    intro i hall hex
    unfold renameSlots
    rcases renameSlotStep_spec stks s e i o with ⟨v, ho, hhead, hstep⟩ | ⟨hhead, hstep⟩
    · simp only [slotReadVars, hhead, List.singleton_append] at hall hex
      by_cases hbad : alGet? stks v = some []
      · rw [hstep, renameUse_empty stks v hbad]
        rfl
      · obtain ⟨nv, hnv⟩ := renameUse_ok stks v (hall v (List.mem_cons_self v _)) hbad
        rw [hstep, hnv]
        have htail : ∀ v2 ∈ slotReadVars s e (i + 1) rest, (alGet? stks v2).isSome :=
          fun v2 hv2 => hall v2 (List.mem_cons_of_mem v hv2)
        have hex2 : ∃ v2 ∈ slotReadVars s e (i + 1) rest,
            alGet? stks v2 = some [] := by
          obtain ⟨v2, hv2, hbad2⟩ := hex
          rcases List.mem_cons.mp hv2 with rfl | hv2
          · exact absurd hbad2 hbad
          · exact ⟨v2, hv2, hbad2⟩
        rw [ih (i + 1) htail hex2]
        rfl
    · simp only [slotReadVars, hhead, List.nil_append] at hall hex
      rw [hstep, ih (i + 1) hall hex]

theorem renameSlots_ok (stks : List (Nat × List Nat)) (s e : Nat) :
    ∀ (os : List (Option IrOperand)) (i : Nat),
      (∀ v ∈ slotReadVars s e i os,
        (alGet? stks v).isSome ∧ alGet? stks v ≠ some []) →
      ∃ os2, renameSlots stks s e i os = .ok os2 := by
  intro os
  induction os with
  | nil => intro i _; exact ⟨[], rfl⟩
  | cons o rest ih =>
    intro i hall
    unfold renameSlots
    rcases renameSlotStep_spec stks s e i o with ⟨v, ho, hhead, hstep⟩ | ⟨hhead, hstep⟩
    · simp only [slotReadVars, hhead, List.singleton_append] at hall
      obtain ⟨hp, hne⟩ := hall v (List.mem_cons_self v _)
      obtain ⟨nv, hnv⟩ := renameUse_ok stks v hp hne
      obtain ⟨os2, hos2⟩ := ih (i + 1)
        (fun v2 hv2 => hall v2 (List.mem_cons_of_mem v hv2))
      rw [hstep, hnv, hos2]
      exact ⟨_, rfl⟩
    · simp only [slotReadVars, hhead, List.nil_append] at hall
      obtain ⟨os2, hos2⟩ := ih (i + 1) hall
      rw [hstep, hos2]
      exact ⟨_, rfl⟩

theorem renameExtras_err (stks : List (Nat × List Nat)) :
    ∀ (es : List IrOperand),
      (∀ v ∈ extraReadVars es, (alGet? stks v).isSome) →
      (∃ v ∈ extraReadVars es, alGet? stks v = some []) →
      renameExtras stks es = .error "variable used before being defined" := by
  intro es
  induction es with
  | nil =>
    intro _ h
    simp [extraReadVars] at h
  | cons o rest ih =>
    intro hall hex
    unfold renameExtras
    rcases renameExtraStep_spec stks o with ⟨v, ho, hhead, hstep⟩ | ⟨hhead, hstep⟩
    · simp only [extraReadVars, hhead, List.singleton_append] at hall hex
      by_cases hbad : alGet? stks v = some []
      · rw [hstep, renameUse_empty stks v hbad]
        rfl
      · obtain ⟨nv, hnv⟩ := renameUse_ok stks v (hall v (List.mem_cons_self v _)) hbad
        rw [hstep, hnv]
        have hex2 : ∃ v2 ∈ extraReadVars rest, alGet? stks v2 = some [] := by
          obtain ⟨v2, hv2, hbad2⟩ := hex
          rcases List.mem_cons.mp hv2 with rfl | hv2
          · exact absurd hbad2 hbad
          · exact ⟨v2, hv2, hbad2⟩
        rw [ih (fun v2 hv2 => hall v2 (List.mem_cons_of_mem v hv2)) hex2]
        rfl
    · simp only [extraReadVars, hhead, List.nil_append] at hall hex
      rw [hstep, ih hall hex]

/-- C10: (a) a non-phi instruction that reads a variable whose subscript
stack exists but is empty at that point of the walk makes the renaming
of that instruction fail with the assertion message "variable used
before being defined"; (b) the error propagates through the instruction
loop of `_rename_block`, so no renamed block (and hence no SSA CFG) is
produced; (c) invoking the register allocator on a CFG whose kind is not
SSA fails with the assertion "CFG must be in SSA form". -/
theorem c10_use_before_def_assertions :
    (∀ (st : RenameState) (inst : IrInstruction),
      inst.op ≠ .ASSIGN_PHI →
      (∀ v ∈ instReadVars inst, (alGet? st.stks v).isSome) →
      (∃ v ∈ instReadVars inst, alGet? st.stks v = some []) →
      renameInst st inst = .error "variable used before being defined") ∧
    (∀ (st st1 : RenameState) (pre : List IrInstruction),
      ∀ (pre2 post : List IrInstruction) (inst : IrInstruction) (msg : String),
      renameInsts st pre = .ok (st1, pre2) →
      renameInst st1 inst = .error msg →
      renameInsts st (pre ++ inst :: post) = .error msg) ∧
    (∀ (cfg : ControlFlowGraph) (k : Nat), cfg.type ≠ .SSA →
      allocate cfg k = .error "CFG must be in SSA form") := by
  refine ⟨?_, ?_, ?_⟩
  · intro st inst hnphi hall hex
    unfold renameInst
    rw [if_neg hnphi]
    unfold instReadVars at hall hex
    by_cases hslot : ∃ v ∈ slotReadVars (if inst.op.isOpcodeAssign then 1 else 0)
        inst.op.getOperandCount 0 [inst.opr0, inst.opr1, inst.opr2],
        alGet? st.stks v = some []
    · rw [renameSlots_err st.stks _ _ _ 0
        (fun v hv => hall v (List.mem_append_left _ hv)) hslot]
    · have hallslots : ∀ v ∈ slotReadVars (if inst.op.isOpcodeAssign then 1 else 0)
          inst.op.getOperandCount 0 [inst.opr0, inst.opr1, inst.opr2],
          (alGet? st.stks v).isSome ∧ alGet? st.stks v ≠ some [] := by
        intro v hv
        exact ⟨hall v (List.mem_append_left _ hv),
          fun hb => hslot ⟨v, hv, hb⟩⟩
      obtain ⟨os2, hos2⟩ := renameSlots_ok st.stks _ _ _ 0 hallslots
      rw [hos2]
      have hex2 : ∃ v ∈ (if inst.op.hasExtraOperands then extraReadVars inst.extra
          else []), alGet? st.stks v = some [] := by
        obtain ⟨v, hv, hb⟩ := hex
        rcases List.mem_append.mp hv with hv | hv
        · exact absurd ⟨v, hv, hb⟩ hslot
        · exact ⟨v, hv, hb⟩
      by_cases hext : inst.op.hasExtraOperands
      · rw [if_pos hext] at hex2
        have hallext : ∀ v ∈ extraReadVars inst.extra, (alGet? st.stks v).isSome := by
          intro v hv
          refine hall v (List.mem_append_right _ ?_)
          rw [if_pos hext]
          exact hv
        rw [if_pos hext, renameExtras_err st.stks inst.extra hallext hex2]
      · rw [if_neg hext] at hex2
        obtain ⟨v, hv, _⟩ := hex2
        exact absurd hv (List.not_mem_nil v)
  · intro st st1 pre
    induction pre generalizing st with
    | nil =>
      intro pre2 post inst msg h1 h2
      unfold renameInsts at h1
      simp only [Except.ok.injEq, Prod.mk.injEq] at h1
      obtain ⟨hst, _⟩ := h1
      subst hst
      rw [List.nil_append]
      unfold renameInsts
      rw [h2]
    | cons a t ih =>
      intro pre2 post inst msg h1 h2
      unfold renameInsts at h1
      cases ha : renameInst st a with
      | error m2 => rw [ha] at h1; cases h1
      | ok p1 =>
        rw [ha] at h1
        dsimp only at h1
        cases ht : renameInsts p1.1 t with
        | error m2 => rw [ht] at h1; cases h1
        | ok p2 =>
          rw [ht] at h1
          dsimp only at h1
          simp only [Except.ok.injEq, Prod.mk.injEq] at h1
          obtain ⟨hst, _⟩ := h1
          rw [List.cons_append]
          unfold renameInsts
          rw [ha]
          dsimp only
          rw [ih p1.1 p2.2 post inst msg (by rw [ht, ← hst]) h2]
  · intro cfg k h
    unfold allocate
    rw [if_pos h]

/-- Closed instance of `c10_use_before_def_assertions`: renaming `RET v7`
with an empty stack for variable 7 aborts with the assertion message,
also through the instruction loop, and allocating a `NORMAL`-kind CFG
aborts with the SSA-precondition assertion. -/
theorem c10_use_before_def_witness :
    renameInst ⟨[], [(7, [])]⟩ (mkRet 7) =
      .error "variable used before being defined" ∧
    renameInsts ⟨[], [(7, [])]⟩ ([] ++ mkRet 7 :: []) =
      .error "variable used before being defined" ∧
    allocate { type := .NORMAL, root := 1, blocks := [] } 5 =
      .error "CFG must be in SSA form" := by
  refine ⟨?_, ?_, ?_⟩
  · exact c10_use_before_def_assertions.1 ⟨[], [(7, [])]⟩ (mkRet 7) (by decide)
      (by decide) ⟨7, by decide, by decide⟩
  · exact c10_use_before_def_assertions.2.1 ⟨[], [(7, [])]⟩ ⟨[], [(7, [])]⟩ [] [] []
      (mkRet 7) "variable used before being defined" rfl
      (c10_use_before_def_assertions.1 ⟨[], [(7, [])]⟩ (mkRet 7) (by decide)
        (by decide) ⟨7, by decide, by decide⟩)
  · exact c10_use_before_def_assertions.2.2 { type := .NORMAL, root := 1, blocks := [] }
      5 (by decide)

/-- C4: the callee-save pushes and pops are NOT balanced on every
return path.  On `c4Cfg` the allocator uses color 3 (register `X`), so
`_to_restore_on_exit = [X]` and the `RET` path pops `X` — but no
`STORE` occurs, `_need_prologue` stays false, the prologue (the only
place pushes happen) is skipped, and `SET PUSH, X` is never emitted:
the emitted code pops a register it never pushed. -/
theorem c4_callee_save_unbalanced :
    ∃ pr lines, allocate c4Cfg 7 = .ok pr ∧
      translateAllocated fProc pr.1 pr.2 = .ok lines ∧
      lines = ["f:", "\tSET X, 1", "\tSET A, 2", "\tSET C, 3", "\tSET B, 4",
        "\tADD A, X", "\tADD A, C", "\tADD A, B", "\tSET X, POP", "\tSET PC, POP"] ∧
      "\tSET X, POP" ∈ lines ∧ "\tSET PUSH, X" ∉ lines := by
  refine ⟨(c4Cfg, ⟨[(1, 3), (2, 0), (3, 2), (4, 1), (11, 0), (12, 0), (13, 0)]⟩),
    ["f:", "\tSET X, 1", "\tSET A, 2", "\tSET C, 3", "\tSET B, 4",
      "\tADD A, X", "\tADD A, C", "\tADD A, B", "\tSET X, POP", "\tSET PC, POP"],
    ?_, ?_, rfl, ?_, ?_⟩
  · rfl
  · rfl
  · decide
  · decide

/-- C5: lowering an `ASSIGN_CALL` does not produce the claimed
push/JSR/pop sequence — it aborts.  The branch's first statement reads
`self._to_store_on_call`, an attribute no code ever defines, so every
`ASSIGN_CALL` (and `ASSIGN_CALL_PTR`) raises `AttributeError` before
emitting anything. -/
theorem c5_assign_call_attribute_error :
    ∃ pr, allocate c5Cfg 7 = .ok pr ∧
      translateAllocated fProc pr.1 pr.2 =
        .error "AttributeError: _to_store_on_call" := by
  exact ⟨(c5Cfg, ⟨[(1, 0)]⟩), rfl, rfl⟩

/-- C6: for an `ASSIGN_ADDROF` whose source is a spill slot, the
emitted address is J PLUS the slot index, not J minus it: slot 0 of the
stored-lrs list is addressed `[J - 1]` by `STORE`/`LOAD`, but the
`ASSIGN_ADDROF` branch emits `SET dest, J` followed by `ADD dest, 1`,
so the computed address `J + 1` points at the saved old `J`, not at the
slot the store wrote. -/
theorem c6_addrof_spill_adds :
    ∃ lines, translateAllocated fProc c6Cfg c6Res = .ok lines ∧
      lines = ["f:", "\tSET PUSH, J", "\tSET J, SP", "\tSUB SP, 1", "\tSET A, 5",
        "\tSET [J - 1], A", "\tSET A, J", "\tADD A, 1",
        "\tSET SP, J", "\tSET J, POP", "\tSET PC, POP"] ∧
      "\tSET [J - 1], A" ∈ lines ∧ "\tSET A, J" ∈ lines ∧
      "\tADD A, 1" ∈ lines ∧ "\tSUB A, 1" ∉ lines := by
  refine ⟨["f:", "\tSET PUSH, J", "\tSET J, SP", "\tSUB SP, 1", "\tSET A, 5",
    "\tSET [J - 1], A", "\tSET A, J", "\tADD A, 1",
    "\tSET SP, J", "\tSET J, POP", "\tSET PC, POP"], ?_, rfl, ?_, ?_, ?_, ?_⟩
  · rfl
  · decide
  · decide
  · decide
  · decide

end Esocc
